import Mathlib

/-
Verification development for the dcmpipe DICOM codec.

The Rust sources embedded here:
  - src/dcmpipe_lib/src/core/read/stop.rs         (ParseStop and its evaluation)
  - src/dcmpipe_lib/src/core/write/valencode.rs   (RawValue -> bytes encoding)
  - src/dcmpipe_lib/src/core/write/writer.rs      (element / file-meta writer)
  - src/dcmpipe_lib/src/core/read/util.rs         (tolerant tag reading)
  - src/src/read/mod.rs                           (prototype DicomStream reader)

Supporting definitions that live outside the embedded files (the VR and
transfer-syntax descriptor tables, tag constants, the character set, and the
element constructors) are modelled from the spec where noted.

Machine integers are modelled as Nat with explicit `% 2^w` at the points the
Rust code truncates; byte sinks and sources are `List Nat` of byte values;
fallible code returns `Except`.
-/

namespace Dcmpipe

/-- Modelled from the spec (vr.rs is not under src/): a VR descriptor carries a
two-ASCII-byte identifier, a padding byte (space 0x20 or NUL 0x00), the
`is_character_string` flag, and the `has_explicit_2byte_pad` flag (OB, OW, OF,
SQ, UT, UN). `explicit_vr_header_bytes` is the total element-header size used
by the prototype reader: 12 for VRs with the 2-byte pad, 8 otherwise (the
prototype's `read_value_length` matches on exactly these two values). -/
structure VR where
  ident : String
  padding : Nat
  is_character_string : Bool
  has_explicit_2byte_pad : Bool
  explicit_vr_header_bytes : Nat
deriving DecidableEq, Repr

namespace vr

def UL : VR := ⟨ "UL" , 0x20, false, false, 8 ⟩

def UI : VR := ⟨ "UI" , 0x00, true, false, 8 ⟩

def UN : VR := ⟨ "UN" , 0x00, false, true, 12 ⟩

def OB : VR := ⟨ "OB" , 0x00, false, true, 12 ⟩

def OW : VR := ⟨ "OW" , 0x00, false, true, 12 ⟩

def OF : VR := ⟨ "OF" , 0x00, false, true, 12 ⟩

def SQ : VR := ⟨ "SQ" , 0x00, false, true, 12 ⟩

def UT : VR := ⟨ "UT" , 0x20, true, true, 12 ⟩

def CS : VR := ⟨ "CS" , 0x20, true, false, 8 ⟩

def DS : VR := ⟨ "DS" , 0x20, true, false, 8 ⟩

def IS : VR := ⟨ "IS" , 0x20, true, false, 8 ⟩

def SS : VR := ⟨ "SS" , 0x00, false, false, 8 ⟩

def US : VR := ⟨ "US" , 0x00, false, false, 8 ⟩

def SL : VR := ⟨ "SL" , 0x00, false, false, 8 ⟩

def FL : VR := ⟨ "FL" , 0x00, false, false, 8 ⟩

def FD : VR := ⟨ "FD" , 0x00, false, false, 8 ⟩

def AT : VR := ⟨ "AT" , 0x00, false, false, 8 ⟩

/-- The two-byte VR code of a descriptor: `(first_char << 8) + second_char`,
as computed by both readers. -/
def vrCode (v : VR) : Nat :=
  match v.ident.data with
  | a :: b :: _ => a.toNat * 256 + b.toNat
  | _ => 0

/-- Modelled from the spec (the VR dictionary is not under src/): the
code -> descriptor lookup over the modelled descriptor set, mirroring
`VR::from_code` / `VR::code_to_vr`. -/
def from_code (code : Nat) : Option VR :=
  [UL, UI, UN, OB, OW, OF, SQ, UT, CS, DS, IS, SS, US, SL, FL, FD, AT].find?
    (fun v => vrCode v = code)

end vr

/-- Modelled from the spec (ts.rs is not under src/): a transfer-syntax
descriptor is a UID string plus the `explicit_vr`, `big_endian` and
`deflated` flags. -/
structure TS where
  uid : String
  explicit_vr : Bool
  big_endian : Bool
  deflated : Bool
deriving DecidableEq, Repr

namespace ts

def ImplicitVRLittleEndian : TS := ⟨ "1.2.840.10008.1.2" , false, false, false ⟩

def ExplicitVRLittleEndian : TS := ⟨ "1.2.840.10008.1.2.1" , true, false, false ⟩

def ExplicitVRBigEndian : TS := ⟨ "1.2.840.10008.1.2.2" , true, true, false ⟩

def DeflatedExplicitVRLittleEndian : TS := ⟨ "1.2.840.10008.1.2.1.99" , true, false, true ⟩

/-- Modelled from the spec (the UID dictionary is not under src/): the
UID -> descriptor lookup `TS_BY_ID` over the spec's required minimum set. -/
def TS_BY_ID (uid : String) : Option TS :=
  [ImplicitVRLittleEndian, ExplicitVRLittleEndian, ExplicitVRBigEndian,
    DeflatedExplicitVRLittleEndian].find? (fun t => t.uid = uid)

end ts

/-- Modelled from the spec (tag.rs is not under src/): a TagPath node is a tag
with an optional 1-based item index. `tag()` and `item()` are plain field
reads. -/
structure TagNode where
  tag : Nat
  item : Option Nat
deriving DecidableEq, Repr

/-- Modelled from the spec: a TagPath is an ordered list of TagNodes. -/
structure TagPath where
  nodes : List TagNode
deriving DecidableEq, Repr

/-- stop.rs: `ParseStop` — when element parsing should end. -/
inductive ParseStop where
  | EndOfDataset : ParseStop
  | BeforeTagValue : TagPath → ParseStop
  | AfterTagValue : TagPath → ParseStop
  | AfterBytePos : Nat → ParseStop
deriving DecidableEq, Repr

namespace ParseStop

/-- stop.rs `is_before_tag_value`: per-level comparison of a (target, current)
node pair under unsigned tag ordering. -/
def is_before_tag_value (p : TagNode × TagNode) : Bool :=
  let target := p.1
  let current := p.2
  if current.tag < target.tag then
    false
  else if current.tag > target.tag then
    true
  else
    match current.item with
    | some cur_idx =>
      match target.item with
      | some target_idx => cur_idx ≥ target_idx
      | none => true
    | none => true

/-- stop.rs `is_after_tag_value`: per-level comparison for the AfterTagValue
stop. -/
def is_after_tag_value (p : TagNode × TagNode) : Bool :=
  let target := p.1
  let current := p.2
  if current.tag < target.tag then
    false
  else if current.tag > target.tag then
    true
  else
    match current.item with
    | some cur_idx =>
      match target.item with
      | some target_idx => cur_idx > target_idx
      | none => false
    | none => false

/-- stop.rs `ParseStop::evaluate`: zip the target path with the current path
and test `any` with the per-level comparison; non-tag-valued stops return
false. -/
def evaluate (stop : ParseStop) (current : TagPath) : Bool :=
  match stop with
  | BeforeTagValue target =>
    ((target.nodes.zip current.nodes).any is_before_tag_value)
  | AfterTagValue target =>
    ((target.nodes.zip current.nodes).any is_after_tag_value)
  | _ => false

end ParseStop

/-- vl.rs model: a value length is explicit or the undefined-length
sentinel. -/
inductive ValueLength where
  | Explicit : Nat → ValueLength
  | UndefinedLength : ValueLength
deriving DecidableEq, Repr

/-- The undefined-length sentinel 0xFFFF_FFFF. -/
def UNDEFINED_LENGTH : Nat := 0xFFFFFFFF

/-- vl.rs `from_value_length`: decode a u32 into a `ValueLength`. -/
def from_value_length (n : Nat) : ValueLength :=
  if n = UNDEFINED_LENGTH then ValueLength.UndefinedLength else ValueLength.Explicit n

/-- Little-endian bytes of a u16 value (`u16::to_le_bytes`). -/
def u16LE (n : Nat) : List Nat := [n % 256, n / 256 % 256]

/-- Big-endian bytes of a u16 value (`u16::to_be_bytes`). -/
def u16BE (n : Nat) : List Nat := [n / 256 % 256, n % 256]

/-- Little-endian bytes of a u32 value (`u32::to_le_bytes`). -/
def u32LE (n : Nat) : List Nat :=
  [n % 256, n / 256 % 256, n / 65536 % 256, n / 16777216 % 256]

/-- Big-endian bytes of a u32 value (`u32::to_be_bytes`). -/
def u32BE (n : Nat) : List Nat :=
  [n / 16777216 % 256, n / 65536 % 256, n / 256 % 256, n % 256]

/-- Little-endian bytes of a u64 value (`u64::to_le_bytes`). -/
def u64LE (n : Nat) : List Nat :=
  [n % 256, n / 256 % 256, n / 65536 % 256, n / 16777216 % 256,
    n / 2 ^ 32 % 256, n / 2 ^ 40 % 256, n / 2 ^ 48 % 256, n / 2 ^ 56 % 256]

/-- Big-endian bytes of a u64 value (`u64::to_be_bytes`). -/
def u64BE (n : Nat) : List Nat := (u64LE n).reverse

/-- Rust `i16::to_le_bytes` through the two's-complement image in [0, 2^16). -/
def i16LE (i : Int) : List Nat := u16LE (i.emod (2 ^ 16)).toNat

/-- Rust `i16::to_be_bytes`. -/
def i16BE (i : Int) : List Nat := u16BE (i.emod (2 ^ 16)).toNat

/-- Rust `i32::to_le_bytes`. -/
def i32LE (i : Int) : List Nat := u32LE (i.emod (2 ^ 32)).toNat

/-- Rust `i32::to_be_bytes`. -/
def i32BE (i : Int) : List Nat := u32BE (i.emod (2 ^ 32)).toNat

/-- Rust `i64::to_le_bytes`. -/
def i64LE (i : Int) : List Nat := u64LE (i.emod (2 ^ 64)).toNat

/-- Rust `i64::to_be_bytes`. -/
def i64BE (i : Int) : List Nat := u64BE (i.emod (2 ^ 64)).toNat

/-- ASCII decimal rendering of an integer (`to_string().into_bytes()`). -/
def intDecimalBytes (i : Int) : List Nat := (toString i).data.map Char.toNat

/-- ASCII decimal rendering of an unsigned integer. -/
def natDecimalBytes (n : Nat) : List Nat := (toString n).data.map Char.toNat

/-- vr.rs `CS_SEPARATOR_BYTE`: the multi-value separator, backslash 0x5C. -/
def CS_SEPARATOR_BYTE : Nat := 0x5C

/-- Modelled from the spec (charset.rs is not under src/): a character set is
its encode capability, `none` standing for a charset error. -/
structure CharSet where
  encode : String → Option (List Nat)

/-- Modelled from the spec: the default ISO IR 6 (ASCII) character set. -/
def asciiEncode (s : String) : Option (List Nat) :=
  if s.data.all (fun c => c.toNat < 128) then some (s.data.map Char.toNat) else none

/-- The default character set value. -/
def DEFAULT_CHARACTER_SET : CharSet := ⟨ asciiEncode ⟩

/-- Modelled from the spec: IEEE-754 f32 values are not shallowly embeddable;
the carrier records exactly what valencode.rs consults about an f32 — its
finiteness, its 4-byte LE and BE renderings, and the decimal rendering chosen
by the DS branch (covering both the fract()==0 case and `to_string`). -/
structure F32 where
  finite : Bool
  leBytes : List Nat
  beBytes : List Nat
  decimalBytes : List Nat

/-- Modelled from the spec: the f64 counterpart of `F32`. -/
structure F64 where
  finite : Bool
  leBytes : List Nat
  beBytes : List Nat
  decimalBytes : List Nat

/-- values.rs `RawValue`: the tagged union over all semantic value forms.
Machine integers are Nat/Int; floats are the `F32`/`F64` carriers. -/
inductive RawValue where
  | Attribute : List Nat → RawValue
  | Uid : String → RawValue
  | Strings : List String → RawValue
  | Shorts : List Int → RawValue
  | UnsignedShorts : List Nat → RawValue
  | Integers : List Int → RawValue
  | UnsignedIntegers : List Nat → RawValue
  | Longs : List Int → RawValue
  | UnsignedLongs : List Nat → RawValue
  | Floats : List F32 → RawValue
  | Doubles : List F64 → RawValue
  | Bytes : List Nat → RawValue
  | Words : List Nat → RawValue
  | DoubleWords : List Nat → RawValue
  | QuadWords : List Nat → RawValue

/-- dcmelement.rs model (the file is not under src/; fields are the spec's
data model): tag, VR, value length, transfer syntax, character set, and the
raw value bytes. -/
structure DicomElement where
  tag : Nat
  vr : VR
  vl : ValueLength
  ts : TS
  cs : CharSet
  data : List Nat

/-- valencode.rs errors surfaced by encoding (`ParseError` in the source;
only the constructors the embedded code produces). -/
inductive ParseErr where
  | CharsetError : ParseErr
  | ExpectedEOF : ParseErr
  | IOErrorK : ParseErr
  | UnknownExplicitVR : Nat → ParseErr
  | InvalidData : ParseErr
  | FuelExhausted : ParseErr
deriving DecidableEq, Repr

/-- valencode.rs `ElemAndAttributes`: AT values as (group, element) u16 pairs
in the element's endianness. -/
def elemAndAttributes (elem : DicomElement) (attrs : List Nat) : List Nat :=
  attrs.flatMap (fun attr =>
    let group_number := attr / 65536 % 65536
    let elem_number := attr % 65536
    if elem.ts.big_endian then u16BE group_number ++ u16BE elem_number
    else u16LE group_number ++ u16LE elem_number)

/-- valencode.rs `ElemAndUid`: charset encode of the UID string. -/
def elemAndUid (elem : DicomElement) (uid : String) : Except ParseErr (List Nat) :=
  match elem.cs.encode uid with
  | some bs => Except.ok bs
  | none => Except.error ParseErr.CharsetError

/-- valencode.rs `ElemAndStrings`: charset-encode each string, join with the
backslash separator, drop the trailing separator; any failing encode yields a
charset error. -/
def elemAndStrings (elem : DicomElement) (strings : List String) : Except ParseErr (List Nat) :=
  if strings.all (fun s => (elem.cs.encode s).isSome) then
    Except.ok
      ((strings.flatMap
        (fun s => ((elem.cs.encode s).getD []) ++ [CS_SEPARATOR_BYTE])).dropLast)
  else Except.error ParseErr.CharsetError

/-- valencode.rs `ElemAndShorts`: decimal strings joined by the separator for
character-string VRs, else i16 bytes in the element's endianness. -/
def elemAndShorts (elem : DicomElement) (shorts : List Int) : List Nat :=
  if elem.vr.is_character_string then
    (shorts.flatMap (fun i => intDecimalBytes i ++ [CS_SEPARATOR_BYTE])).dropLast
  else
    shorts.flatMap (fun i => if elem.ts.big_endian then i16BE i else i16LE i)

/-- valencode.rs `ElemAndUnsignedShorts`. -/
def elemAndUnsignedShorts (elem : DicomElement) (ushorts : List Nat) : List Nat :=
  if elem.vr.is_character_string then
    (ushorts.flatMap (fun n => natDecimalBytes n ++ [CS_SEPARATOR_BYTE])).dropLast
  else
    ushorts.flatMap (fun n =>
      if elem.ts.big_endian then u16BE (n % 2 ^ 16) else u16LE (n % 2 ^ 16))

/-- valencode.rs `ElemAndIntegers`. -/
def elemAndIntegers (elem : DicomElement) (ints : List Int) : List Nat :=
  if elem.vr.is_character_string then
    (ints.flatMap (fun i => intDecimalBytes i ++ [CS_SEPARATOR_BYTE])).dropLast
  else
    ints.flatMap (fun i => if elem.ts.big_endian then i32BE i else i32LE i)

/-- valencode.rs `ElemAndUnsignedIntegers`. -/
def elemAndUnsignedIntegers (elem : DicomElement) (uints : List Nat) : List Nat :=
  if elem.vr.is_character_string then
    (uints.flatMap (fun n => natDecimalBytes n ++ [CS_SEPARATOR_BYTE])).dropLast
  else
    uints.flatMap (fun n =>
      if elem.ts.big_endian then u32BE (n % 2 ^ 32) else u32LE (n % 2 ^ 32))

/-- valencode.rs `ElemAndLongs`. -/
def elemAndLongs (elem : DicomElement) (longs : List Int) : List Nat :=
  if elem.vr.is_character_string then
    (longs.flatMap (fun i => intDecimalBytes i ++ [CS_SEPARATOR_BYTE])).dropLast
  else
    longs.flatMap (fun i => if elem.ts.big_endian then i64BE i else i64LE i)

/-- valencode.rs `ElemAndUnsignedLongs`. -/
def elemAndUnsignedLongs (elem : DicomElement) (ulongs : List Nat) : List Nat :=
  if elem.vr.is_character_string then
    (ulongs.flatMap (fun n => natDecimalBytes n ++ [CS_SEPARATOR_BYTE])).dropLast
  else
    ulongs.flatMap (fun n =>
      if elem.ts.big_endian then u64BE (n % 2 ^ 64) else u64LE (n % 2 ^ 64))

/-- valencode.rs `ElemAndFloats`: non-finite values are filtered out, then the
DS decimal form or the FL 4-byte binary form is produced. -/
def elemAndFloats (elem : DicomElement) (floats : List F32) : List Nat :=
  if elem.vr.is_character_string then
    ((floats.filter (fun f => f.finite)).flatMap
      (fun f => f.decimalBytes ++ [CS_SEPARATOR_BYTE])).dropLast
  else
    (floats.filter (fun f => f.finite)).flatMap
      (fun f => if elem.ts.big_endian then f.beBytes else f.leBytes)

/-- valencode.rs `ElemAndDoubles`: the f64 counterpart of `elemAndFloats`. -/
def elemAndDoubles (elem : DicomElement) (doubles : List F64) : List Nat :=
  if elem.vr.is_character_string then
    ((doubles.filter (fun f => f.finite)).flatMap
      (fun f => f.decimalBytes ++ [CS_SEPARATOR_BYTE])).dropLast
  else
    (doubles.filter (fun f => f.finite)).flatMap
      (fun f => if elem.ts.big_endian then f.beBytes else f.leBytes)

/-- valencode.rs `ElemAndWords`: u16 sequence in the element's endianness. -/
def elemAndWords (elem : DicomElement) (words : List Nat) : List Nat :=
  words.flatMap (fun n =>
    if elem.ts.big_endian then u16BE (n % 2 ^ 16) else u16LE (n % 2 ^ 16))

/-- valencode.rs `ElemAndDoubleWords`: u32 sequence. -/
def elemAndDoubleWords (elem : DicomElement) (dwords : List Nat) : List Nat :=
  dwords.flatMap (fun n =>
    if elem.ts.big_endian then u32BE (n % 2 ^ 32) else u32LE (n % 2 ^ 32))

/-- valencode.rs `ElemAndQuadWords`: u64 sequence. -/
def elemAndQuadWords (elem : DicomElement) (qwords : List Nat) : List Nat :=
  qwords.flatMap (fun n =>
    if elem.ts.big_endian then u64BE (n % 2 ^ 64) else u64LE (n % 2 ^ 64))

/-- valencode.rs `TryFrom<ElemAndRawValue>`, the dispatch match block before
the even-length padding step (the value's natural encoding). -/
def rawValueNatural (elem : DicomElement) (v : RawValue) : Except ParseErr (List Nat) :=
  match v with
  | RawValue.Attribute attrs => Except.ok (elemAndAttributes elem attrs)
  | RawValue.Uid uid => elemAndUid elem uid
  | RawValue.Strings strings => elemAndStrings elem strings
  | RawValue.Shorts shorts => Except.ok (elemAndShorts elem shorts)
  | RawValue.UnsignedShorts ushorts => Except.ok (elemAndUnsignedShorts elem ushorts)
  | RawValue.Integers ints => Except.ok (elemAndIntegers elem ints)
  | RawValue.UnsignedIntegers uints => Except.ok (elemAndUnsignedIntegers elem uints)
  | RawValue.Longs longs => Except.ok (elemAndLongs elem longs)
  | RawValue.UnsignedLongs ulongs => Except.ok (elemAndUnsignedLongs elem ulongs)
  | RawValue.Floats floats => Except.ok (elemAndFloats elem floats)
  | RawValue.Doubles doubles => Except.ok (elemAndDoubles elem doubles)
  | RawValue.Bytes bytes => Except.ok bytes
  | RawValue.Words words => Except.ok (elemAndWords elem words)
  | RawValue.DoubleWords dwords => Except.ok (elemAndDoubleWords elem dwords)
  | RawValue.QuadWords qwords => Except.ok (elemAndQuadWords elem qwords)

/-- valencode.rs `TryFrom<ElemAndRawValue>` in full: the dispatch followed by
the even-length padding step — an odd-length natural encoding gains one
VR-padding byte. -/
def encodeRawValue (elem : DicomElement) (v : RawValue) : Except ParseErr (List Nat) :=
  match rawValueNatural elem v with
  | Except.error e => Except.error e
  | Except.ok bytes =>
    if bytes.length % 2 ≠ 0 then Except.ok (bytes ++ [elem.vr.padding])
    else Except.ok bytes

/-- dcmelement.rs `DicomElement::encode_value`, modelled from the spec (the
file is not under src/): replace the element's data with the encoded value and
set the value length to the encoded byte count. -/
def DicomElement.encode_value (e : DicomElement) (v : RawValue) : Except ParseErr DicomElement :=
  match encodeRawValue e v with
  | Except.error err => Except.error err
  | Except.ok bytes =>
    Except.ok { e with data := bytes, vl := ValueLength.Explicit bytes.length }

/-- constants/tags.rs `FILE_META_INFORMATION_GROUP_LENGTH` (0002,0000). -/
def FILE_META_INFORMATION_GROUP_LENGTH : Nat := 0x00020000

/-- Modelled from the spec (constants/tags.rs is not under src/): the last tag
of the file-meta group 0x0002, `FILE_META_GROUP_END`. -/
def FILE_META_GROUP_END : Nat := 0x0002FFFF

/-- The TransferSyntaxUID tag (0002,0010). -/
def TRANSFER_SYNTAX_UID : Nat := 0x00020010

/-- The ASCII bytes of the `"DICM"` magic. -/
def DICM_MAGIC : List Nat := [0x44, 0x49, 0x43, 0x4D]

/-- write/error.rs `WriteError` (the constructors the embedded code can
produce; IO failures cannot occur against the pure byte-list sink). -/
inductive WriteErr where
  | InvalidValueLength : WriteErr
  | FromParse : ParseErr → WriteErr
deriving DecidableEq, Repr

/-- writer.rs `WriterState`. -/
inductive WriterState where
  | Preamble : WriterState
  | GroupLength : WriterState
  | FileMeta : WriterState
  | Element : WriterState
deriving DecidableEq, Repr

/-- writer.rs `Writer`: the byte sink is a plain byte list. -/
structure Writer where
  dataset : List Nat
  state : WriterState
  bytes_written : Nat
  ts : TS
  cs : CharSet
  file_preamble : Option (List Nat)

/-- The ASCII bytes of a VR identifier, `vr.ident.as_bytes()`. -/
def vrIdentBytes (v : VR) : List Nat := v.ident.data.map Char.toNat

/-- writer.rs `Writer::write_tag`: both u16 halves of the tag in the
element's endianness, appended to the sink. -/
def write_tag (dataset : List Nat) (element : DicomElement) : List Nat × Nat :=
  let g := element.tag / 65536 % 65536
  let e := element.tag % 65536
  let bs := if element.ts.big_endian then u16BE g ++ u16BE e else u16LE g ++ u16LE e
  (dataset ++ bs, bs.length)

/-- writer.rs `Writer::write_vr`: nothing under implicit VR; the two identifier
bytes, plus two reserved zero bytes for VRs with the explicit 2-byte pad. -/
def write_vr (dataset : List Nat) (element : DicomElement) : List Nat × Nat :=
  if !element.ts.explicit_vr then (dataset, 0)
  else
    let bs := vrIdentBytes element.vr ++
      (if element.vr.has_explicit_2byte_pad then [0, 0] else [])
    (dataset ++ bs, bs.length)

/-- writer.rs `Writer::write_vl`, the length-field bytes: undefined length
demands the 4-byte form (`InvalidValueLength` otherwise); explicit lengths are
written as u32, or masked to u16 in the short form. -/
def write_vl_bytes (element : DicomElement) : Except WriteErr (List Nat) :=
  let write_as_u32 : Bool := !element.ts.explicit_vr || element.vr.has_explicit_2byte_pad
  match element.vl with
  | ValueLength.UndefinedLength =>
    if !write_as_u32 then Except.error WriteErr.InvalidValueLength
    else
      Except.ok (if element.ts.big_endian then u32BE UNDEFINED_LENGTH
        else u32LE UNDEFINED_LENGTH)
  | ValueLength.Explicit length =>
    if write_as_u32 then
      Except.ok (if element.ts.big_endian then u32BE (length % 2 ^ 32)
        else u32LE (length % 2 ^ 32))
    else
      let masked := length % 2 ^ 16
      Except.ok (if element.ts.big_endian then u16BE masked else u16LE masked)

/-- writer.rs `Writer::write_vl`: the length-field bytes appended to the
sink. -/
def write_vl (dataset : List Nat) (element : DicomElement) :
    Except WriteErr (List Nat × Nat) :=
  match write_vl_bytes element with
  | Except.error e => Except.error e
  | Except.ok bs => Except.ok (dataset ++ bs, bs.length)

/-- writer.rs `Writer::write_data`: the element's raw value bytes. -/
def write_data (dataset : List Nat) (element : DicomElement) : List Nat × Nat :=
  (dataset ++ element.data, element.data.length)

/-- writer.rs `Writer::write_element`: tag, VR, value length, then data. -/
def write_element (dataset : List Nat) (element : DicomElement) :
    Except WriteErr (List Nat × Nat) :=
  let (ds1, n1) := write_tag dataset element
  let (ds2, n2) := write_vr ds1 element
  match write_vl ds2 element with
  | Except.error e => Except.error e
  | Except.ok (ds3, n3) =>
    let (ds4, n4) := write_data ds3 element
    Except.ok (ds4, n1 + n2 + n3 + n4)

/-- Sequential `write_element` over a list of elements (the writer's plain
per-element loop once outside file-meta handling). -/
def writeElementsSeq (dataset : List Nat) (elements : List DicomElement) :
    Except WriteErr (List Nat × Nat) :=
  match elements with
  | [] => Except.ok (dataset, 0)
  | e :: rest =>
    match write_element dataset e with
    | Except.error err => Except.error err
    | Except.ok (ds1, n1) =>
      match writeElementsSeq ds1 rest with
      | Except.error err => Except.error err
      | Except.ok (ds2, n2) => Except.ok (ds2, n1 + n2)

/-- writer.rs `Writer::new_fme`: a fresh element under ExplicitVRLittleEndian
holding the encoded value (`DicomElement::new_empty` modelled from the spec as
the all-empty element). -/
def new_fme (tag : Nat) (avr : VR) (value : RawValue) : Except WriteErr DicomElement :=
  let element : DicomElement :=
    { tag := tag, vr := avr, vl := ValueLength.Explicit 0,
      ts := ts.ExplicitVRLittleEndian, cs := DEFAULT_CHARACTER_SET, data := [] }
  match element.encode_value value with
  | Except.error e => Except.error (WriteErr.FromParse e)
  | Except.ok e => Except.ok e

/-- writer.rs `Writer::write_fm_elements`: encode the collected file-meta
elements into a fresh in-memory buffer, synthesize the
FileMetaInformationGroupLength element with the buffer's u32 byte length,
write it, then write the buffer. -/
def write_fm_elements (dataset : List Nat) (fm_elements : List DicomElement) :
    Except WriteErr (List Nat × Nat) :=
  match writeElementsSeq [] fm_elements with
  | Except.error e => Except.error e
  | Except.ok (fm_bytes, _) =>
    match new_fme FILE_META_INFORMATION_GROUP_LENGTH vr.UL
        (RawValue.UnsignedIntegers [fm_bytes.length % 2 ^ 32]) with
    | Except.error e => Except.error e
    | Except.ok fm_group_length =>
      match write_element dataset fm_group_length with
      | Except.error e => Except.error e
      | Except.ok (ds1, n1) => Except.ok (ds1 ++ fm_bytes, n1 + fm_bytes.length)

/-- writer.rs `Writer::write_elements`, the per-element loop: in the FileMeta
state, file-meta-ranged tags are collected (skipping any input group length);
the first higher tag flushes the collection through `write_fm_elements` and
flips to the Element state; elements are then written directly. Returns the
sink, final state, pending collected file-meta elements, and count. -/
def write_elements_loop (dataset : List Nat) (state : WriterState)
    (fm_elements : List DicomElement) (bytes_written : Nat)
    (elements : List DicomElement) :
    Except WriteErr (List Nat × WriterState × List DicomElement × Nat) :=
  match elements with
  | [] => Except.ok (dataset, state, fm_elements, bytes_written)
  | element :: rest =>
    if state = WriterState.FileMeta then
      if element.tag ≤ FILE_META_GROUP_END then
        if element.tag ≠ FILE_META_INFORMATION_GROUP_LENGTH then
          write_elements_loop dataset state (fm_elements ++ [element]) bytes_written rest
        else
          write_elements_loop dataset state fm_elements bytes_written rest
      else
        match write_fm_elements dataset fm_elements with
        | Except.error e => Except.error e
        | Except.ok (ds1, n1) =>
          match write_element ds1 element with
          | Except.error e => Except.error e
          | Except.ok (ds2, n2) =>
            write_elements_loop ds2 WriterState.Element []
              (bytes_written + n1 + n2) rest
    else
      match write_element dataset element with
      | Except.error e => Except.error e
      | Except.ok (ds1, n1) =>
        write_elements_loop ds1 state fm_elements (bytes_written + n1) rest

/-- writer.rs `Writer::write_elements`: the preamble step, the per-element
loop, and the final flush of a purely-file-meta input. -/
def write_elements (w : Writer) (elements : List DicomElement) :
    Except WriteErr (Writer × Nat) :=
  let (ds0, st0, bw0) :=
    if w.state = WriterState.Preamble then
      let pre := w.file_preamble.getD []
      (w.dataset ++ pre ++ DICM_MAGIC, WriterState.FileMeta, pre.length + DICM_MAGIC.length)
    else (w.dataset, w.state, 0)
  match write_elements_loop ds0 st0 [] bw0 elements with
  | Except.error e => Except.error e
  | Except.ok (ds1, st1, fm_elements, bw1) =>
    if st1 = WriterState.FileMeta ∧ fm_elements.isEmpty = false then
      match write_fm_elements ds1 fm_elements with
      | Except.error e => Except.error e
      | Except.ok (ds2, n2) =>
        Except.ok ({ w with dataset := ds2, state := st1 }, bw1 + n2)
    else
      Except.ok ({ w with dataset := ds1, state := st1 }, bw1)

/-- A scripted byte source for read/util.rs: each `Read::read` call against it
either delivers the front of a byte chunk, fails with `ErrorKind::Interrupted`,
or fails with another IO error. An exhausted script answers every read with
zero bytes (end of stream). -/
inductive ReadEvent where
  | chunk : List Nat → ReadEvent
  | interrupted : ReadEvent
  | ioerr : ReadEvent

/-- util.rs `read_exact_expect_eof`, big-stepped over the scripted source:
`needed` is the unfilled remainder of the buffer, `bytesRead` the running
count, `acc` the bytes filled so far. A zero-byte read breaks the loop, which
then reports `ExpectedEOF` when nothing at all was read and an
`UnexpectedEof` IO error when the buffer is partially filled; `Interrupted`
reads are retried; other errors propagate. A chunk longer than the request is
consumed only up to the request, the remainder staying at the front of the
source. -/
def read_exact_expect_eof_go (needed : Nat) (s : List ReadEvent)
    (bytesRead : Nat) (acc : List Nat) :
    Except ParseErr (List Nat × List ReadEvent) :=
  if needed = 0 then Except.ok (acc, s)
  else
    match s with
    | [] =>
      if bytesRead = 0 then Except.error ParseErr.ExpectedEOF
      else Except.error ParseErr.IOErrorK
    | ReadEvent.chunk bs :: rest =>
      if bs.length = 0 then
        (if bytesRead = 0 then Except.error ParseErr.ExpectedEOF
         else Except.error ParseErr.IOErrorK)
      else if bs.length ≤ needed then
        read_exact_expect_eof_go (needed - bs.length) rest
          (bytesRead + bs.length) (acc ++ bs)
      else
        Except.ok (acc ++ bs.take needed, ReadEvent.chunk (bs.drop needed) :: rest)
    | ReadEvent.interrupted :: rest =>
      read_exact_expect_eof_go needed rest bytesRead acc
    | ReadEvent.ioerr :: _ => Except.error ParseErr.IOErrorK

/-- util.rs `read_exact_expect_eof` entry point for an `n`-byte buffer. -/
def read_exact_expect_eof (n : Nat) (s : List ReadEvent) :
    Except ParseErr (List Nat × List ReadEvent) :=
  read_exact_expect_eof_go n s 0 []

/-- Model of `std::io::Read::read_exact` over the scripted source: same loop as the
tolerant primitive, but any incomplete fill — zero bytes read included — is an
`UnexpectedEof` IO error. -/
def read_exact_std_go (needed : Nat) (s : List ReadEvent) (acc : List Nat) :
    Except ParseErr (List Nat × List ReadEvent) :=
  if needed = 0 then Except.ok (acc, s)
  else
    match s with
    | [] => Except.error ParseErr.IOErrorK
    | ReadEvent.chunk bs :: rest =>
      if bs.length = 0 then Except.error ParseErr.IOErrorK
      else if bs.length ≤ needed then
        read_exact_std_go (needed - bs.length) rest (acc ++ bs)
      else
        Except.ok (acc ++ bs.take needed, ReadEvent.chunk (bs.drop needed) :: rest)
    | ReadEvent.interrupted :: rest => read_exact_std_go needed rest acc
    | ReadEvent.ioerr :: _ => Except.error ParseErr.IOErrorK

/-- u16 from two little-endian bytes. -/
def fromU16LE (bs : List Nat) : Nat :=
  match bs with
  | [a, b] => a + b * 256
  | _ => 0

/-- u16 from two big-endian bytes. -/
def fromU16BE (bs : List Nat) : Nat :=
  match bs with
  | [a, b] => a * 256 + b
  | _ => 0

/-- u32 from four little-endian bytes. -/
def fromU32LE (bs : List Nat) : Nat :=
  match bs with
  | [a, b, c, d] => a + b * 256 + c * 65536 + d * 16777216
  | _ => 0

/-- util.rs `read_tag_from_dataset`: the group u16 through the tolerant
primitive, the element u16 through plain `read_exact`, composed as
`(group << 16) + element`. -/
def read_tag_from_dataset (s : List ReadEvent) (big_endian : Bool) :
    Except ParseErr (Nat × List ReadEvent) :=
  match read_exact_expect_eof 2 s with
  | Except.error e => Except.error e
  | Except.ok (gbuf, s1) =>
    let group_number := (if big_endian then fromU16BE gbuf else fromU16LE gbuf) * 65536
    match read_exact_std_go 2 s1 [] with
    | Except.error e => Except.error e
    | Except.ok (ebuf, s2) =>
      let element_number := if big_endian then fromU16BE ebuf else fromU16LE ebuf
      Except.ok (group_number + element_number, s2)

/-- src/src/read/mod.rs `DicomElement` (the prototype's flat element). -/
structure OldElement where
  tag : Nat
  vr : VR
  vl : Nat
  bytes : List Nat

/-- src/src/read/mod.rs `DicomStream`: the byte source is a plain byte list;
the file-meta `HashMap` is an association list updated by key overwrite. -/
structure DicomStream where
  stream : List Nat
  file_meta : List (Nat × OldElement)
  ts : TS
  tag_peek : Option Nat
  bytes_read : Nat

/-- Draw exactly `n` bytes from the byte source, as `read_exact` or the
`read_u16`/`read_u32` primitives do; fewer available bytes fail with an IO
error. -/
def takeExact (n : Nat) (bytes : List Nat) : Except ParseErr (List Nat × List Nat) :=
  if n ≤ bytes.length then Except.ok (bytes.take n, bytes.drop n)
  else Except.error ParseErr.IOErrorK

/-- Model of `HashMap::insert` on the association list: overwrite the key. -/
def fmInsert (key : Nat) (val : OldElement) (m : List (Nat × OldElement)) :
    List (Nat × OldElement) :=
  (m.filter (fun p => p.1 ≠ key)) ++ [(key, val)]

/-- Key lookup in the file-meta association list. -/
def fmLookup (key : Nat) (m : List (Nat × OldElement)) : Option OldElement :=
  (m.find? (fun p => p.1 = key)).map (fun p => p.2)

namespace DicomStream

/-- src/src/read/mod.rs `DicomStream::new`: fresh state over a byte source;
the active transfer syntax starts as ExplicitVRLittleEndian. -/
def new (stream : List Nat) : DicomStream :=
  { stream := stream, file_meta := [], ts := ts.ExplicitVRLittleEndian,
    tag_peek := none, bytes_read := 0 }

/-- src/src/read/mod.rs `DicomStream::read_tag`: a previously peeked tag is
returned as-is; otherwise two u16s are drawn, composed, stashed as the peek,
and `bytes_read` advances by 4. -/
def read_tag (big_endian : Bool) (st : DicomStream) :
    Except ParseErr (Nat × DicomStream) :=
  match st.tag_peek with
  | some t => Except.ok (t, st)
  | none =>
    match takeExact 2 st.stream with
    | Except.error e => Except.error e
    | Except.ok (b1, s1) =>
      match takeExact 2 s1 with
      | Except.error e => Except.error e
      | Except.ok (b2, s2) =>
        let first := (if big_endian then fromU16BE b1 else fromU16LE b1) * 65536
        let second := if big_endian then fromU16BE b2 else fromU16LE b2
        let result := first + second
        Except.ok (result,
          { st with
            stream := s2
            tag_peek := some result
            bytes_read := st.bytes_read + 4 })

/-- src/src/read/mod.rs `DicomStream::read_vr`: two bytes compose the VR code,
`bytes_read` advances by 2, and an unknown code is an error. -/
def read_vr (st : DicomStream) : Except ParseErr (VR × DicomStream) :=
  match takeExact 2 st.stream with
  | Except.error e => Except.error e
  | Except.ok (b, s1) =>
    let code := (b.headD 0) * 256 + (b.getD 1 0)
    let st1 := { st with stream := s1, bytes_read := st.bytes_read + 2 }
    match vr.from_code code with
    | some v => Except.ok (v, st1)
    | none => Except.error ParseErr.InvalidData

/-- src/src/read/mod.rs `DicomStream::read_value_length`: a u16 is drawn for
8-header VRs, a u16 then a u32 for 12-header VRs (the u32 is the length);
afterwards `bytes_read` advances by the VR's whole
`explicit_vr_header_bytes` — not by the number of bytes drawn here. -/
def read_value_length (big_endian : Bool) (v : VR) (st : DicomStream) :
    Except ParseErr (Nat × DicomStream) :=
  if v.explicit_vr_header_bytes = 8 then
    match takeExact 2 st.stream with
    | Except.error e => Except.error e
    | Except.ok (b, s1) =>
      let vl := if big_endian then fromU16BE b else fromU16LE b
      Except.ok (vl,
        { st with
          stream := s1
          bytes_read := st.bytes_read + v.explicit_vr_header_bytes })
  else if v.explicit_vr_header_bytes = 12 then
    match takeExact 2 st.stream with
    | Except.error e => Except.error e
    | Except.ok (_, s1) =>
      match takeExact 4 s1 with
      | Except.error e => Except.error e
      | Except.ok (b, s2) =>
        let vl := if big_endian then fromU32LE b.reverse else fromU32LE b
        Except.ok (vl,
          { st with
            stream := s2
            bytes_read := st.bytes_read + v.explicit_vr_header_bytes })
  else Except.error ParseErr.InvalidData

/-- src/src/read/mod.rs `DicomStream::read_value_field`: draw `vl` bytes and
advance `bytes_read` by `vl`. -/
def read_value_field (vl : Nat) (st : DicomStream) :
    Except ParseErr (List Nat × DicomStream) :=
  match takeExact vl st.stream with
  | Except.error e => Except.error e
  | Except.ok (bytes, s1) =>
    Except.ok (bytes, { st with stream := s1, bytes_read := st.bytes_read + vl })

/-- Modelled from the spec (the prototype's dictionary tables are not under
src/): `TAG_BY_VALUE` implicit-VR lookup over the file-meta tags the embedded
code touches; missing tags default to UN at the use site. -/
def implicit_vr_of (tag : Nat) : Option VR :=
  if tag = FILE_META_INFORMATION_GROUP_LENGTH then some vr.UL
  else if tag = TRANSFER_SYNTAX_UID then some vr.UI
  else none

/-- src/src/read/mod.rs `DicomStream::_read_dicom_element`: tag from the peek
or the source, peek cleared, VR read (explicit) or looked up (implicit,
defaulting to UN), then the value length and the value field. -/
def read_dicom_element_endian (big_endian : Bool) (st : DicomStream) :
    Except ParseErr (OldElement × DicomStream) :=
  match (match st.tag_peek with
         | some t => Except.ok (t, st)
         | none => read_tag big_endian st : Except ParseErr (Nat × DicomStream)) with
  | Except.error e => Except.error e
  | Except.ok (tag, st1) =>
    let st2 := { st1 with tag_peek := none }
    match (if st2.ts.explicit_vr then read_vr st2
           else Except.ok ((implicit_vr_of tag).getD vr.UN, st2)) with
    | Except.error e => Except.error e
    | Except.ok (v, st3) =>
      match read_value_length big_endian v st3 with
      | Except.error e => Except.error e
      | Except.ok (vl, st4) =>
        match read_value_field vl st4 with
        | Except.error e => Except.error e
        | Except.ok (bytes, st5) =>
          Except.ok ({ tag := tag, vr := v, vl := vl, bytes := bytes }, st5)

/-- src/src/read/mod.rs `DicomStream::read_dicom_element`: endianness from the
active transfer syntax. -/
def read_dicom_element (st : DicomStream) :
    Except ParseErr (OldElement × DicomStream) :=
  read_dicom_element_endian st.ts.big_endian st

/-- src/src/read/mod.rs `DicomStream::read_file_preamble`: 128 bytes. -/
def read_file_preamble (st : DicomStream) : Except ParseErr DicomStream :=
  match takeExact 128 st.stream with
  | Except.error e => Except.error e
  | Except.ok (_, s1) =>
    Except.ok { st with stream := s1, bytes_read := st.bytes_read + 128 }

/-- src/src/read/mod.rs `DicomStream::read_dicom_prefix`: 4 bytes that must be
the `"DICM"` magic. -/
def read_dicom_magic (st : DicomStream) : Except ParseErr DicomStream :=
  match takeExact 4 st.stream with
  | Except.error e => Except.error e
  | Except.ok (b, s1) =>
    if b = DICM_MAGIC then
      Except.ok { st with stream := s1, bytes_read := st.bytes_read + 4 }
    else Except.error ParseErr.InvalidData

/-- Continuation-byte test for strict UTF-8: a byte in 0x80..0xBF. -/
def utf8Cont (b : Nat) : Bool := decide (0x80 ≤ b) && decide (b < 0xC0)

/-- Strict UTF-8 decoding of a byte list, exactly the validation
`String::from_utf8` performs: one- to four-byte sequences, rejecting stray
continuation bytes, overlong encodings (lead bytes 0xC0/0xC1, short seconds
after 0xE0/0xF0), surrogate code points (0xED with second byte 0xA0..0xBF),
code points above 0x10FFFF (lead 0xF4 with second byte 0x90..0xBF) and lead
bytes 0xF5..0xFF. Every accepted sequence decodes to its scalar value. -/
def utf8DecodeList : List Nat → Option (List Char)
  | [] => some []
  | b :: rest =>
    if b < 0x80 then
      (utf8DecodeList rest).map (fun cs => Char.ofNat b :: cs)
    else if b < 0xC2 then none
    else if b < 0xE0 then
      match rest with
      | b1 :: rest1 =>
        if utf8Cont b1 then
          (utf8DecodeList rest1).map
            (fun cs => Char.ofNat ((b - 0xC0) * 64 + (b1 - 0x80)) :: cs)
        else none
      | [] => none
    else if b < 0xF0 then
      match rest with
      | b1 :: b2 :: rest2 =>
        if ((if b = 0xE0 then decide (0xA0 ≤ b1) && decide (b1 < 0xC0)
             else if b = 0xED then decide (0x80 ≤ b1) && decide (b1 < 0xA0)
             else utf8Cont b1) && utf8Cont b2) then
          (utf8DecodeList rest2).map
            (fun cs => Char.ofNat
              ((b - 0xE0) * 4096 + (b1 - 0x80) * 64 + (b2 - 0x80)) :: cs)
        else none
      | _ => none
    else if b < 0xF5 then
      match rest with
      | b1 :: b2 :: b3 :: rest3 =>
        if ((if b = 0xF0 then decide (0x90 ≤ b1) && decide (b1 < 0xC0)
             else if b = 0xF4 then decide (0x80 ≤ b1) && decide (b1 < 0x90)
             else utf8Cont b1) && utf8Cont b2 && utf8Cont b3) then
          (utf8DecodeList rest3).map
            (fun cs => Char.ofNat
              ((b - 0xF0) * 262144 + (b1 - 0x80) * 4096
                + (b2 - 0x80) * 64 + (b3 - 0x80)) :: cs)
        else none
      | _ => none
    else none

/-- src/src/read/mod.rs: the trailing-padding strip applied to the
TransferSyntaxUID value (`filter` of every `vr::UI.padding` byte), followed by
`String::from_utf8`, modelled by strict UTF-8 decoding of the filtered bytes;
a decode failure is an InvalidData error as in the source. -/
def ts_uid_string (bytes : List Nat) : Except ParseErr String :=
  let filtered := bytes.filter (fun b => b ≠ vr.UI.padding)
  match utf8DecodeList filtered with
  | some cs => Except.ok (String.mk cs)
  | none => Except.error ParseErr.InvalidData

/-- src/src/read/mod.rs `read_file_meta`, the element loop: while fewer than
`fme_bytes` have been counted past `before`, read an element, update the
stashed transfer syntax when a recognized TransferSyntaxUID is seen, and
insert the element into the file-meta map. `fuel` bounds the recursion (the
caller supplies more fuel than the byte source can sustain iterations). -/
def read_fme_loop (fuel : Nat) (st : DicomStream) (before fme_bytes : Nat)
    (xfer_ts : TS) : Except ParseErr (DicomStream × TS) :=
  match fuel with
  | 0 => Except.error ParseErr.FuelExhausted
  | fuel' + 1 =>
    if st.bytes_read - before < fme_bytes then
      match read_dicom_element st with
      | Except.error e => Except.error e
      | Except.ok (element, st1) =>
        match (if element.tag = TRANSFER_SYNTAX_UID then
                 match ts_uid_string element.bytes with
                 | Except.error e => Except.error e
                 | Except.ok uid =>
                   Except.ok (match ts.TS_BY_ID uid with
                              | some t => t
                              | none => xfer_ts)
               else Except.ok xfer_ts : Except ParseErr TS) with
        | Except.error e => Except.error e
        | Except.ok ts' =>
          read_fme_loop fuel'
            { st1 with file_meta := fmInsert element.tag element st1.file_meta }
            before fme_bytes ts'
    else Except.ok (st, xfer_ts)

/-- Observer of a `read_fme_loop` run, by the same case analysis as the loop:
whether some iteration reads a TransferSyntaxUID element whose padding-
stripped, UTF-8-decoded UID `TS_BY_ID` recognizes. This is the one event
through which the loop can move its stashed transfer syntax off the incoming
value. -/
def fme_loop_recognizes (fuel : Nat) (st : DicomStream)
    (before fme_bytes : Nat) : Bool :=
  match fuel with
  | 0 => false
  | fuel' + 1 =>
    if st.bytes_read - before < fme_bytes then
      match read_dicom_element st with
      | Except.error _ => false
      | Except.ok (element, st1) =>
        if element.tag = TRANSFER_SYNTAX_UID then
          match ts_uid_string element.bytes with
          | Except.error _ => false
          | Except.ok uid =>
            match ts.TS_BY_ID uid with
            | some _ => true
            | none =>
              fme_loop_recognizes fuel'
                { st1 with file_meta := fmInsert element.tag element st1.file_meta }
                before fme_bytes
        else
          fme_loop_recognizes fuel'
            { st1 with file_meta := fmInsert element.tag element st1.file_meta }
            before fme_bytes
    else false

/-- src/src/read/mod.rs `DicomStream::read_file_meta`: preamble, magic, the
mandatory FileMetaInformationGroupLength element (whose u32 LE value is the
remaining file-meta byte count), the element loop starting from an
ImplicitVRLittleEndian stash, and finally the switch of the active transfer
syntax to the stashed value. -/
def read_file_meta (st : DicomStream) : Except ParseErr DicomStream :=
  match read_file_preamble st with
  | Except.error e => Except.error e
  | Except.ok st1 =>
    match read_dicom_magic st1 with
    | Except.error e => Except.error e
    | Except.ok st2 =>
      let bytes_read_before_fme := st2.bytes_read
      match read_dicom_element st2 with
      | Except.error e => Except.error e
      | Except.ok (fmi_grouplength, st3) =>
        if fmi_grouplength.tag ≠ FILE_META_INFORMATION_GROUP_LENGTH then
          Except.error ParseErr.InvalidData
        else if fmi_grouplength.bytes.length < 4 then
          Except.error ParseErr.IOErrorK
        else
          let fme_bytes := fromU32LE (fmi_grouplength.bytes.take 4)
          match read_fme_loop (st3.stream.length + 1) st3 bytes_read_before_fme
              fme_bytes ts.ImplicitVRLittleEndian with
          | Except.error e => Except.error e
          | Except.ok (st4, xfer_ts) =>
            Except.ok { st4 with ts := xfer_ts }

/-- Observer of a `read_file_meta` run, mirroring it step for step: whether
its file-meta element loop reads a TransferSyntaxUID element carrying a
recognized UID. It is `false` in particular whenever no TransferSyntaxUID
element is present in the file-meta group, and whenever every one present
carries an unrecognized or undecodable UID. -/
def fm_recognizes (st : DicomStream) : Bool :=
  match read_file_preamble st with
  | Except.error _ => false
  | Except.ok st1 =>
    match read_dicom_magic st1 with
    | Except.error _ => false
    | Except.ok st2 =>
      let bytes_read_before_fme := st2.bytes_read
      match read_dicom_element st2 with
      | Except.error _ => false
      | Except.ok (fmi_grouplength, st3) =>
        if fmi_grouplength.tag ≠ FILE_META_INFORMATION_GROUP_LENGTH then false
        else if fmi_grouplength.bytes.length < 4 then false
        else
          fme_loop_recognizes (st3.stream.length + 1) st3 bytes_read_before_fme
            (fromU32LE (fmi_grouplength.bytes.take 4))

end DicomStream

/-- A sample character-string element: VR CS under ExplicitVRLittleEndian with
the default charset. -/
def sampleCSElem : DicomElement :=
  { tag := 0x00080005, vr := vr.CS, vl := ValueLength.Explicit 0,
    ts := ts.ExplicitVRLittleEndian, cs := DEFAULT_CHARACTER_SET, data := [] }

/-- An f32 NaN in the carrier model: non-finite, with the quiet-NaN LE bit
pattern. -/
def nanF32 : F32 := ⟨ false, [0, 0, 192, 127], [127, 192, 0, 0], [] ⟩

/-- A sample binary float element: VR FL under ExplicitVRLittleEndian. -/
def sampleFLElem : DicomElement :=
  { tag := 0x00089459, vr := vr.FL, vl := ValueLength.Explicit 0,
    ts := ts.ExplicitVRLittleEndian, cs := DEFAULT_CHARACTER_SET, data := [] }

/-- The byte test for being in file-meta tag range, `tag <= FILE_META_GROUP_END`. -/
def fm_ranged (e : DicomElement) : Bool := e.tag ≤ FILE_META_GROUP_END

/-- The writer's skip test: not a FileMetaInformationGroupLength element. -/
def not_group_length (e : DicomElement) : Bool :=
  e.tag ≠ FILE_META_INFORMATION_GROUP_LENGTH

/-- The wire bytes of the synthesized FileMetaInformationGroupLength element
for a buffer of `len` bytes: tag (0002,0000) LE, "UL", short-form length 4,
and the u32 LE value. -/
def fmGroupLengthBytes (len : Nat) : List Nat :=
  [2, 0, 0, 0, 85, 76, 4, 0] ++ u32LE (len % 2 ^ 32)

/-- The empty writer poised in the FileMeta state. -/
def w0 : Writer :=
  { dataset := [], state := WriterState.FileMeta, bytes_written := 0,
    ts := ts.ExplicitVRLittleEndian, cs := DEFAULT_CHARACTER_SET,
    file_preamble := none }

/-- A TransferSyntaxUID file-meta element that carries ImplicitVRLittleEndian
as its own transfer syntax. -/
def fmImplicitElem : DicomElement :=
  { tag := 0x00020010, vr := vr.UI, vl := ValueLength.Explicit 2,
    ts := ts.ImplicitVRLittleEndian, cs := DEFAULT_CHARACTER_SET,
    data := [49, 0] }

/-- A dataset element (SpecificCharacterSet, empty value) under
ExplicitVRLittleEndian. -/
def csDataElem : DicomElement :=
  { tag := 0x00080005, vr := vr.CS, vl := ValueLength.Explicit 0,
    ts := ts.ExplicitVRLittleEndian, cs := DEFAULT_CHARACTER_SET, data := [] }

/-- The writer state after the C2/C9 sample write of both elements. -/
def c2ResultWriter : Writer :=
  { dataset := [2, 0, 0, 0, 85, 76, 4, 0, 10, 0, 0, 0,
                2, 0, 16, 0, 2, 0, 0, 0, 49, 0,
                8, 0, 5, 0, 67, 83, 0, 0],
    state := WriterState.Element, bytes_written := 0,
    ts := ts.ExplicitVRLittleEndian, cs := DEFAULT_CHARACTER_SET,
    file_preamble := none }

/-- The prototype reader positioned before a short-form value length with
exactly the two length bytes [4, 0] available. -/
def c5Stream : DicomStream :=
  { stream := [4, 0], file_meta := [], ts := ts.ExplicitVRLittleEndian,
    tag_peek := none, bytes_read := 0 }

/-- Key membership in the file-meta association list. -/
def hasKey (k : Nat) (m : List (Nat × OldElement)) : Bool :=
  m.any (fun p => p.1 = k)

/-- The concrete 144-byte stream: a 128-byte preamble, the DICM magic, and a
file-meta group consisting only of a FileMetaInformationGroupLength element
with value 0 — no TransferSyntaxUID element at all. -/
def c4Stream : List Nat :=
  List.replicate 128 0 ++ [68, 73, 67, 77] ++
    [2, 0, 0, 0] ++ [85, 76] ++ [4, 0] ++ [0, 0, 0, 0]

/-- The reader state after `read_file_meta` on `c4Stream`. -/
def c4Final : DicomStream :=
  { stream := [], file_meta := [], ts := ts.ImplicitVRLittleEndian,
    tag_peek := none, bytes_read := 150 }

/-- A sample element with an explicit value length under the short form. -/
def sampleVlElem : DicomElement :=
  { tag := 0x00080005, vr := vr.CS, vl := ValueLength.Explicit 10,
    ts := ts.ExplicitVRLittleEndian, cs := DEFAULT_CHARACTER_SET, data := [] }

/-! Theorems. -/

/-- C1: `BeforeTagValue(T).evaluate(P)` zips target and current node-by-node
with unsigned tag ordering — no stop while the current tag is below the target
tag at every zipped level; stop as soon as some zipped level has the current
tag above the target tag; on tag equality a target item index stops exactly
when the current index has reached it, and an index-free target node stops at
the first equal tag; consequently evaluation at T itself stops, so an element
at T is never emitted under the spec's before-read evaluation. -/
theorem beforeTagValue_stop_spec (T P : TagPath) (t c : TagNode) (i j : Nat) :
    ((∀ p ∈ T.nodes.zip P.nodes, p.2.tag < p.1.tag) →
      ParseStop.evaluate (ParseStop.BeforeTagValue T) P = false) ∧
    ((t, c) ∈ T.nodes.zip P.nodes → t.tag < c.tag →
      ParseStop.evaluate (ParseStop.BeforeTagValue T) P = true) ∧
    (t.tag = c.tag → t.item = some i → c.item = some j →
      (ParseStop.is_before_tag_value (t, c) = true ↔ i ≤ j)) ∧
    (t.tag = c.tag → t.item = none →
      ParseStop.is_before_tag_value (t, c) = true) ∧
    (T.nodes ≠ [] →
      ParseStop.evaluate (ParseStop.BeforeTagValue T) T = true) := by
  refine ⟨?_, ?_, ?_, ?_, ?_⟩
  · intro hall
    rw [ParseStop.evaluate, List.any_eq_false]
    intro p hp
    have hlt := hall p hp
    simp [ParseStop.is_before_tag_value, hlt]
  · intro hmem hgt
    rw [ParseStop.evaluate, List.any_eq_true]
    refine ⟨(t, c), hmem, ?_⟩
    have h1 : ¬ c.tag < t.tag := by omega
    simp [ParseStop.is_before_tag_value, h1, hgt]
  · intro heq hti hci
    have h1 : ¬ c.tag < t.tag := by omega
    have h2 : ¬ c.tag > t.tag := by omega
    simp [ParseStop.is_before_tag_value, h1, h2, hti, hci]
  · intro heq hti
    have h1 : ¬ c.tag < t.tag := by omega
    have h2 : ¬ c.tag > t.tag := by omega
    cases hci : c.item <;>
      simp [ParseStop.is_before_tag_value, h1, h2, hti, hci]
  · intro hne
    match hT : T.nodes with
    | [] => exact absurd hT hne
    | n :: rest =>
      rw [ParseStop.evaluate, hT, List.zip_cons_cons, List.any_eq_true]
      refine ⟨(n, n), List.mem_cons_self _ _, ?_⟩
      cases hni : n.item <;>
        simp [ParseStop.is_before_tag_value, hni]

/-- C1 witness: the theorem applied at concrete paths — a current path wholly
below the target does not stop, and evaluating the target path against itself
stops. -/
theorem beforeTagValue_stop_spec_witness :
    ParseStop.evaluate
      (ParseStop.BeforeTagValue ⟨[⟨0x7FE00010, none⟩]⟩) ⟨[⟨0x7FE00000, none⟩]⟩ = false ∧
    ParseStop.evaluate
      (ParseStop.BeforeTagValue ⟨[⟨0x00080005, some 2⟩]⟩) ⟨[⟨0x00080005, some 2⟩]⟩ = true :=
  ⟨(beforeTagValue_stop_spec ⟨[⟨0x7FE00010, none⟩]⟩ ⟨[⟨0x7FE00000, none⟩]⟩
      ⟨0, none⟩ ⟨0, none⟩ 0 0).1 (by decide),
    (beforeTagValue_stop_spec ⟨[⟨0x00080005, some 2⟩]⟩ ⟨[⟨0x00080005, some 2⟩]⟩
      ⟨0, none⟩ ⟨0, none⟩ 0 0).2.2.2.2 (by decide)⟩

/-- C3: whenever encoding a RawValue for an element succeeds the byte vector
has even length, and an odd natural encoding gains exactly one trailing
VR-padding byte. -/
theorem encode_raw_value_even (elem : DicomElement) (v : RawValue) (bytes : List Nat)
    (h : encodeRawValue elem v = Except.ok bytes) :
    bytes.length % 2 = 0 ∧
    ∃ nb, rawValueNatural elem v = Except.ok nb ∧
      (nb.length % 2 = 0 → bytes = nb) ∧
      (nb.length % 2 = 1 → bytes = nb ++ [elem.vr.padding]) := by
  unfold encodeRawValue at h
  cases hn : rawValueNatural elem v with
  | error e => rw [hn] at h; exact absurd h (by simp)
  | ok nb =>
    rw [hn] at h
    have h' : (if nb.length % 2 ≠ 0 then Except.ok (nb ++ [elem.vr.padding])
        else Except.ok nb) = Except.ok bytes := h
    by_cases hodd : nb.length % 2 = 0
    · rw [if_neg (by simp [hodd])] at h'
      have hb : nb = bytes := by
        simpa using h'
      subst hb
      exact ⟨hodd, nb, rfl, fun _ => rfl, fun hc => by omega⟩
    · rw [if_pos (by simpa using hodd)] at h'
      have hb : nb ++ [elem.vr.padding] = bytes := by
        simpa using h'
      subst hb
      refine ⟨?_, nb, rfl, fun hc => absurd hc hodd, fun _ => rfl⟩
      have := Nat.mod_two_eq_zero_or_one nb.length
      simp [List.length_append]
      omega

/-- C3 witness: encoding the one-character string value "A" for a CS element
succeeds with the odd natural encoding [65] padded by the CS space byte. -/
theorem encode_raw_value_even_witness :
    ([65, 32] : List Nat).length % 2 = 0 ∧
    ∃ nb, rawValueNatural sampleCSElem (RawValue.Strings ["A"]) = Except.ok nb ∧
      (nb.length % 2 = 0 → ([65, 32] : List Nat) = nb) ∧
      (nb.length % 2 = 1 → ([65, 32] : List Nat) = nb ++ [sampleCSElem.vr.padding]) :=
  encode_raw_value_even sampleCSElem (RawValue.Strings ["A"]) [65, 32] (by rfl)

/-- C10: encoding `RawValue::Bytes(b)` returns b unchanged when b has even
length and b with exactly one VR-padding byte appended when odd, for every
element — hence independent of its transfer syntax, endianness, and charset. -/
theorem encode_bytes_value (elem : DicomElement) (b : List Nat) :
    encodeRawValue elem (RawValue.Bytes b) =
      Except.ok (if b.length % 2 = 0 then b else b ++ [elem.vr.padding]) := by
  unfold encodeRawValue rawValueNatural
  by_cases h : b.length % 2 = 0 <;> simp [h]

/-- Filtering twice by the same predicate filters once. -/
theorem filter_self_idem {α : Type} (p : α → Bool) (l : List α) :
    (l.filter p).filter p = l.filter p := by
  rw [List.filter_filter]
  simp

/-- C8: the FL/FD binary forms and the DS character form encode exactly the
finite values — the encoding of a list equals the encoding of its finite
sublist, and a non-finite head contributes nothing. -/
theorem floats_nonfinite_dropped (elem : DicomElement) (fs : List F32)
    (ds : List F64) (f : F32) (d : F64) :
    (elemAndFloats elem fs = elemAndFloats elem (fs.filter (fun x => x.finite))) ∧
    (f.finite = false → elemAndFloats elem (f :: fs) = elemAndFloats elem fs) ∧
    (elemAndDoubles elem ds = elemAndDoubles elem (ds.filter (fun x => x.finite))) ∧
    (d.finite = false → elemAndDoubles elem (d :: ds) = elemAndDoubles elem ds) := by
  refine ⟨?_, ?_, ?_, ?_⟩
  · unfold elemAndFloats
    rw [filter_self_idem]
  · intro hf
    unfold elemAndFloats
    rw [List.filter_cons_of_neg (by simp [hf])]
  · unfold elemAndDoubles
    rw [filter_self_idem]
  · intro hd
    unfold elemAndDoubles
    rw [List.filter_cons_of_neg (by simp [hd])]

/-- C8 witness: a lone NaN encodes to the same bytes as the empty list. -/
theorem floats_nonfinite_dropped_witness :
    elemAndFloats sampleFLElem [nanF32] = elemAndFloats sampleFLElem [] :=
  (floats_nonfinite_dropped sampleFLElem [] [] nanF32
    ⟨ false, [], [], [] ⟩).2.1 rfl

/-- C7: writing a value length fails — with `InvalidValueLength`, the only
error the writer can raise here — exactly when the length is undefined but the
framing is the 2-byte short form (explicit VR without the 2-byte pad); in
every other case a 2-byte or 4-byte length field is appended, undefined length
encoding as 0xFFFF_FFFF. -/
theorem write_vl_spec (dataset : List Nat) (elem : DicomElement) :
    ((write_vl dataset elem = Except.error WriteErr.InvalidValueLength) ↔
      (elem.vl = ValueLength.UndefinedLength ∧ elem.ts.explicit_vr = true ∧
        elem.vr.has_explicit_2byte_pad = false)) ∧
    (∀ e, write_vl dataset elem = Except.error e → e = WriteErr.InvalidValueLength) ∧
    (¬ (elem.vl = ValueLength.UndefinedLength ∧ elem.ts.explicit_vr = true ∧
        elem.vr.has_explicit_2byte_pad = false) →
      ∃ bs n, write_vl dataset elem = Except.ok (dataset ++ bs, n) ∧
        bs.length = n ∧ (n = 2 ∨ n = 4) ∧
        (elem.vl = ValueLength.UndefinedLength → bs = [255, 255, 255, 255])) := by
  cases hvl : elem.vl <;>
    cases hex : elem.ts.explicit_vr <;>
      cases hpad : elem.vr.has_explicit_2byte_pad <;>
        cases hbig : elem.ts.big_endian <;>
          simp [write_vl, write_vl_bytes, hvl, hex, hpad, hbig, UNDEFINED_LENGTH,
            u32LE, u32BE, u16LE, u16BE] <;>
          first
          | exact ⟨_, _, ⟨rfl, rfl⟩, rfl, Or.inr rfl⟩
          | exact ⟨_, _, ⟨rfl, rfl⟩, rfl, Or.inl rfl⟩
          | exact ⟨_, _, ⟨rfl, rfl⟩, rfl, Or.inr rfl, rfl⟩

/-- Helper: `write_element` only appends: its output against any sink is its output
against the empty sink, prefixed. -/
theorem write_element_shift (ds : List Nat) (e : DicomElement) :
    write_element ds e =
      match write_element [] e with
      | Except.error er => Except.error er
      | Except.ok p => Except.ok (ds ++ p.1, p.2) := by
  unfold write_element write_vl
  cases write_vl_bytes e with
  | error er => simp [write_tag, write_vr, write_data]
  | ok bs =>
    cases hex : e.ts.explicit_vr <;>
      simp [write_tag, write_vr, write_data, hex, List.append_assoc]

/-- Helper: `writeElementsSeq` only appends. -/
theorem writeElementsSeq_shift (ds : List Nat) (es : List DicomElement) :
    writeElementsSeq ds es =
      match writeElementsSeq [] es with
      | Except.error er => Except.error er
      | Except.ok p => Except.ok (ds ++ p.1, p.2) := by
  induction es generalizing ds with
  | nil => simp [writeElementsSeq]
  | cons e rest ih =>
    unfold writeElementsSeq
    cases hwe : write_element [] e with
    | error er =>
      have h1 : write_element ds e = Except.error er := by
        simp only [write_element_shift ds e, hwe]
      simp only [h1, hwe]
    | ok p =>
      cases p with
      | mk o m =>
        have h1 : write_element ds e = Except.ok (ds ++ o, m) := by
          simp only [write_element_shift ds e, hwe]
        simp only [h1, hwe]
        rw [ih (ds ++ o), ih o]
        cases writeElementsSeq [] rest with
        | error er => rfl
        | ok q => simp [List.append_assoc]

/-- The VR identifier bytes of UL. -/
theorem vrIdentBytes_UL : vrIdentBytes vr.UL = [85, 76] := rfl

/-- writer.rs `write_fm_elements` in closed form: encode the collected
elements into a buffer, then append the synthesized group-length element's
twelve bytes and the buffer. -/
theorem write_fm_elements_spec (ds : List Nat) (fms : List DicomElement) :
    write_fm_elements ds fms =
      match writeElementsSeq [] fms with
      | Except.error er => Except.error er
      | Except.ok p =>
        Except.ok (ds ++ fmGroupLengthBytes p.1.length ++ p.1, 12 + p.1.length) := by
  unfold write_fm_elements
  cases hseq : writeElementsSeq [] fms with
  | error e => rfl
  | ok p =>
    cases p with
    | mk buf bn =>
      have hmod : buf.length % 2 ^ 32 % 2 ^ 32 = buf.length % 2 ^ 32 :=
        Nat.mod_mod_of_dvd _ dvd_rfl
      have hfme : new_fme FILE_META_INFORMATION_GROUP_LENGTH vr.UL
          (RawValue.UnsignedIntegers [buf.length % 2 ^ 32]) =
          Except.ok { tag := FILE_META_INFORMATION_GROUP_LENGTH
                      vr := vr.UL
                      vl := ValueLength.Explicit 4
                      ts := ts.ExplicitVRLittleEndian
                      cs := DEFAULT_CHARACTER_SET
                      data := u32LE (buf.length % 2 ^ 32) } := by
        unfold new_fme DicomElement.encode_value encodeRawValue rawValueNatural
          elemAndUnsignedIntegers
        simp [vr.UL, ts.ExplicitVRLittleEndian, u32LE, hmod]
      have hgl : write_element ds
          { tag := FILE_META_INFORMATION_GROUP_LENGTH
            vr := vr.UL
            vl := ValueLength.Explicit 4
            ts := ts.ExplicitVRLittleEndian
            cs := DEFAULT_CHARACTER_SET
            data := u32LE (buf.length % 2 ^ 32) } =
          Except.ok (ds ++ fmGroupLengthBytes buf.length, 12) := by
        unfold write_element write_tag write_vr write_vl write_vl_bytes write_data
        rw [show DicomElement.tag
            { tag := FILE_META_INFORMATION_GROUP_LENGTH
              vr := vr.UL
              vl := ValueLength.Explicit 4
              ts := ts.ExplicitVRLittleEndian
              cs := DEFAULT_CHARACTER_SET
              data := u32LE (buf.length % 2 ^ 32) } = 131072 from rfl]
        simp [vr.UL, ts.ExplicitVRLittleEndian, vrIdentBytes_UL,
          fmGroupLengthBytes, u16LE, u32LE]
        exact ⟨rfl, rfl⟩
      simp only [hfme, hgl, List.append_assoc, List.length_append]

/-- The writer loop in the Element state is plain sequential element
writing. -/
theorem write_elements_loop_element (es : List DicomElement) (ds : List Nat)
    (fmAcc : List DicomElement) (bw : Nat) :
    write_elements_loop ds WriterState.Element fmAcc bw es =
      match writeElementsSeq ds es with
      | Except.error er => Except.error er
      | Except.ok p => Except.ok (p.1, WriterState.Element, fmAcc, bw + p.2) := by
  induction es generalizing ds bw with
  | nil => simp [write_elements_loop, writeElementsSeq]
  | cons e rest ih =>
    cases hwe : write_element ds e with
    | error er => simp [write_elements_loop, writeElementsSeq, hwe]
    | ok p =>
      cases p with
      | mk ds1 n1 =>
        simp only [write_elements_loop, writeElementsSeq, hwe, reduceCtorEq,
          reduceIte]
        rw [ih ds1 (bw + n1)]
        cases writeElementsSeq ds1 rest with
        | error er => rfl
        | ok q => simp [Nat.add_assoc]

/-- The writer loop in the FileMeta state: collect the file-meta-ranged run
(skipping any input group length); if nothing follows it, return the
collection pending; otherwise flush it, write the first dataset element, and
write the remainder sequentially in the Element state. -/
theorem write_elements_loop_filemeta (es : List DicomElement) (ds : List Nat)
    (fmAcc : List DicomElement) (bw : Nat) :
    write_elements_loop ds WriterState.FileMeta fmAcc bw es =
      match es.dropWhile fm_ranged with
      | [] =>
        Except.ok (ds, WriterState.FileMeta,
          fmAcc ++ (es.takeWhile fm_ranged).filter not_group_length, bw)
      | e :: rest =>
        match write_fm_elements ds
            (fmAcc ++ (es.takeWhile fm_ranged).filter not_group_length) with
        | Except.error er => Except.error er
        | Except.ok q =>
          match write_element q.1 e with
          | Except.error er => Except.error er
          | Except.ok r =>
            match writeElementsSeq r.1 rest with
            | Except.error er => Except.error er
            | Except.ok s =>
              Except.ok (s.1, WriterState.Element, [], bw + q.2 + r.2 + s.2) := by
  induction es generalizing ds fmAcc bw with
  | nil => simp [write_elements_loop, List.dropWhile, List.takeWhile]
  | cons e rest ih =>
    by_cases hf : e.tag ≤ FILE_META_GROUP_END
    · have hfr : fm_ranged e = true := by simp [fm_ranged, hf]
      by_cases hg : e.tag = FILE_META_INFORMATION_GROUP_LENGTH
      · have hng : not_group_length e = false := by simp [not_group_length, hg]
        simp only [write_elements_loop, hf, if_true, hg, ite_self, if_pos rfl,
          ne_eq, not_true_eq_false, ite_false, List.dropWhile_cons, hfr,
          List.takeWhile_cons, List.filter_cons, hng, Bool.false_eq_true]
        rw [ih ds fmAcc bw]
        rw [if_pos (show FILE_META_INFORMATION_GROUP_LENGTH ≤ FILE_META_GROUP_END by decide)]
      · have hng : not_group_length e = true := by simp [not_group_length, hg]
        simp only [write_elements_loop, hf, if_true, if_pos rfl, ne_eq, hg,
          not_false_eq_true, ite_true, List.dropWhile_cons, hfr,
          List.takeWhile_cons, List.filter_cons, hng]
        rw [ih ds (fmAcc ++ [e]) bw]
        simp [List.append_assoc]
    · have hfr : fm_ranged e = false := by simp [fm_ranged, hf]
      cases hfm : write_fm_elements ds fmAcc with
      | error er =>
        simp [write_elements_loop, hf, hfm, List.dropWhile_cons, hfr,
          List.takeWhile_cons, List.filter_nil, List.append_nil]
      | ok q =>
        cases q with
        | mk ds1 n1 =>
          cases hwe : write_element ds1 e with
          | error er =>
            simp [write_elements_loop, hf, hfm, hwe, List.dropWhile_cons, hfr,
              List.takeWhile_cons, List.filter_nil, List.append_nil]
          | ok r =>
            cases r with
            | mk ds2 n2 =>
              simp only [write_elements_loop, hf, if_pos rfl, if_false,
                ite_false, hfm, hwe, List.dropWhile_cons, hfr,
                List.takeWhile_cons, List.filter_nil, List.append_nil,
                Bool.false_eq_true, reduceIte]
              rw [write_elements_loop_element rest ds2]

/-- A list all of whose members satisfy a predicate is its own takeWhile and
has an empty dropWhile. -/
theorem takeWhile_all_dropWhile_nil {α : Type} (p : α → Bool) (l : List α)
    (h : ∀ x ∈ l, p x = true) : l.takeWhile p = l ∧ l.dropWhile p = [] := by
  induction l with
  | nil => simp
  | cons a t ih =>
    have ha := h a (List.mem_cons_self a t)
    have ht := ih (fun x hx => h x (List.mem_cons_of_mem a hx))
    simp [List.takeWhile_cons, List.dropWhile_cons, ha, ht.1, ht.2]

/-- C2 (amended): for a write starting in the FileMeta state, the elements of
the leading file-meta-ranged run (tag at most 0x0002FFFF), minus any input
FileMetaInformationGroupLength, are encoded into a buffer each under its own
transfer syntax; if anything was collected or any element follows the run, the
synthesized group-length element's bytes are written, then the buffer, then
the remaining elements — so the group length and buffer precede every
non-file-meta element. -/
theorem write_elements_filemeta_layout (w : Writer) (es : List DicomElement)
    (w' : Writer) (n : Nat) (hw : w.state = WriterState.FileMeta)
    (hok : write_elements w es = Except.ok (w', n)) :
    ∃ buf bufn,
      writeElementsSeq [] ((es.takeWhile fm_ranged).filter not_group_length) =
        Except.ok (buf, bufn) ∧
      ((es.dropWhile fm_ranged = [] ∧
          (es.takeWhile fm_ranged).filter not_group_length = [] ∧
          w'.dataset = w.dataset ∧ n = 0) ∨
        (∃ restOut restn,
          writeElementsSeq [] (es.dropWhile fm_ranged) = Except.ok (restOut, restn) ∧
          w'.dataset = w.dataset ++ fmGroupLengthBytes buf.length ++ buf ++ restOut ∧
          n = 12 + buf.length + restn)) := by
  unfold write_elements at hok
  rw [hw] at hok
  simp only [reduceCtorEq, if_false, write_elements_loop_filemeta,
    List.nil_append] at hok
  cases hdw : es.dropWhile fm_ranged with
  | nil =>
    rw [hdw] at hok
    cases hie : ((es.takeWhile fm_ranged).filter not_group_length).isEmpty with
    | true =>
      have hnil : (es.takeWhile fm_ranged).filter not_group_length = [] := by
        cases hcase : (es.takeWhile fm_ranged).filter not_group_length with
        | nil => rfl
        | cons a t => rw [hcase] at hie; exact absurd hie (by simp [List.isEmpty])
      simp only [hie, reduceCtorEq, and_false, Bool.false_eq_true, if_false,
        Except.ok.injEq, Prod.mk.injEq] at hok
      obtain ⟨hok1, hok2⟩ := hok
      refine ⟨[], 0, by simp [hnil, writeElementsSeq], Or.inl ?_⟩
      refine ⟨rfl, hnil, ?_, hok2.symm⟩
      rw [← hok1]
    | false =>
      simp only [hie, and_true, eq_self_iff_true, true_and, if_true, reduceIte,
        write_fm_elements_spec] at hok
      cases hseq : writeElementsSeq []
          ((es.takeWhile fm_ranged).filter not_group_length) with
      | error er =>
        rw [hseq] at hok
        exact absurd hok (by simp)
      | ok p =>
        cases p with
        | mk buf bufn =>
          simp only [hseq, Except.ok.injEq, Prod.mk.injEq] at hok
          obtain ⟨hok1, hok2⟩ := hok
          refine ⟨buf, bufn, rfl,
            Or.inr ⟨[], 0, by simp [writeElementsSeq], ?_, by omega⟩⟩
          rw [← hok1]
          simp
  | cons e rest =>
    rw [hdw] at hok
    cases hseq : writeElementsSeq []
        ((es.takeWhile fm_ranged).filter not_group_length) with
    | error er =>
      simp only [write_fm_elements_spec, hseq] at hok
      exact absurd hok (by simp)
    | ok p =>
      cases p with
      | mk buf bufn =>
        have hsh := write_element_shift
          (w.dataset ++ fmGroupLengthBytes buf.length ++ buf) e
        cases hwe0 : write_element [] e with
        | error er =>
          simp only [write_fm_elements_spec, hseq, hsh, hwe0] at hok
          exact absurd hok (by simp)
        | ok q =>
          cases q with
          | mk o m =>
            have hss := writeElementsSeq_shift
              (w.dataset ++ fmGroupLengthBytes buf.length ++ buf ++ o) rest
            cases hsr : writeElementsSeq [] rest with
            | error er =>
              simp only [write_fm_elements_spec, hseq, hsh, hwe0, hss, hsr] at hok
              exact absurd hok (by simp)
            | ok s =>
              cases s with
              | mk so sn =>
                simp only [write_fm_elements_spec, hseq, hsh, hwe0, hss, hsr,
                  reduceCtorEq, false_and, Bool.false_eq_true, if_false,
                  Except.ok.injEq, Prod.mk.injEq] at hok
                obtain ⟨hok1, hok2⟩ := hok
                refine ⟨buf, bufn, rfl, Or.inr ⟨o ++ so, m + sn, ?_, ?_, by omega⟩⟩
                · have h2 : writeElementsSeq o rest = Except.ok (o ++ so, sn) := by
                    rw [writeElementsSeq_shift o rest, hsr]
                  simp only [writeElementsSeq, hwe0, h2]
                · rw [← hok1]
                  simp [List.append_assoc]

/-- C2 counterexample: a file-meta element whose own transfer syntax is
ImplicitVRLittleEndian is buffered in implicit form (no VR bytes), so the
written stream differs from the one the claim demands, where the buffer is
encoded with ExplicitVRLittleEndian (VR "UI" bytes 85, 73 after the tag). -/
theorem write_elements_filemeta_not_forced_evrle :
    (write_elements w0 [fmImplicitElem, csDataElem]).toOption.map
        (fun r => (r.1.dataset, r.2)) =
      some ([2, 0, 0, 0, 85, 76, 4, 0, 10, 0, 0, 0,
             2, 0, 16, 0, 2, 0, 0, 0, 49, 0,
             8, 0, 5, 0, 67, 83, 0, 0], 30) ∧
    ([2, 0, 0, 0, 85, 76, 4, 0, 10, 0, 0, 0,
      2, 0, 16, 0, 2, 0, 0, 0, 49, 0,
      8, 0, 5, 0, 67, 83, 0, 0] : List Nat) ≠
      [2, 0, 0, 0, 85, 76, 4, 0, 10, 0, 0, 0,
       2, 0, 16, 0, 85, 73, 2, 0, 49, 0,
       8, 0, 5, 0, 67, 83, 0, 0] :=
  ⟨rfl, by decide⟩

/-- C2 witness: the layout theorem applied to the concrete two-element
write. -/
theorem write_elements_filemeta_layout_witness :
    ∃ buf bufn,
      writeElementsSeq []
          (([fmImplicitElem, csDataElem].takeWhile fm_ranged).filter not_group_length) =
        Except.ok (buf, bufn) ∧
      (([fmImplicitElem, csDataElem].dropWhile fm_ranged = [] ∧
          ([fmImplicitElem, csDataElem].takeWhile fm_ranged).filter not_group_length = [] ∧
          c2ResultWriter.dataset = w0.dataset ∧ (30 : Nat) = 0) ∨
        (∃ restOut restn,
          writeElementsSeq [] ([fmImplicitElem, csDataElem].dropWhile fm_ranged) =
            Except.ok (restOut, restn) ∧
          c2ResultWriter.dataset =
            w0.dataset ++ fmGroupLengthBytes buf.length ++ buf ++ restOut ∧
          (30 : Nat) = 12 + buf.length + restn)) :=
  write_elements_filemeta_layout w0 [fmImplicitElem, csDataElem]
    c2ResultWriter 30 rfl rfl

/-- C9: when every input element is file-meta ranged and at least one is not a
group length, the loop collects them all and the final flush still writes the
synthesized group-length element followed by the buffered bytes — twelve bytes
plus the buffer, never nothing. -/
theorem write_elements_all_filemeta_flush (w : Writer) (es : List DicomElement)
    (w' : Writer) (n : Nat) (hw : w.state = WriterState.FileMeta)
    (hall : ∀ e ∈ es, fm_ranged e = true)
    (hsome : ∃ e ∈ es, not_group_length e = true)
    (hok : write_elements w es = Except.ok (w', n)) :
    ∃ buf bufn,
      writeElementsSeq [] (es.filter not_group_length) = Except.ok (buf, bufn) ∧
      w'.dataset = w.dataset ++ fmGroupLengthBytes buf.length ++ buf ∧
      n = 12 + buf.length ∧
      w'.dataset.length = w.dataset.length + 12 + buf.length := by
  obtain ⟨htake, hdrop⟩ := takeWhile_all_dropWhile_nil fm_ranged es hall
  obtain ⟨e, he, hne⟩ := hsome
  have hmem : e ∈ es.filter not_group_length := List.mem_filter.mpr ⟨he, hne⟩
  have hnn : es.filter not_group_length ≠ [] := List.ne_nil_of_mem hmem
  have hie : (es.filter not_group_length).isEmpty = false := by
    cases hcase : es.filter not_group_length with
    | nil => exact absurd hcase hnn
    | cons a t => simp [List.isEmpty]
  unfold write_elements at hok
  rw [hw] at hok
  simp only [reduceCtorEq, if_false, write_elements_loop_filemeta,
    List.nil_append, hdrop, htake] at hok
  simp only [hie, and_true, eq_self_iff_true, true_and, if_true, reduceIte,
    write_fm_elements_spec] at hok
  cases hseq : writeElementsSeq [] (es.filter not_group_length) with
  | error er =>
    rw [hseq] at hok
    exact absurd hok (by simp)
  | ok p =>
    cases p with
    | mk buf bufn =>
      simp only [hseq, Except.ok.injEq, Prod.mk.injEq] at hok
      obtain ⟨hok1, hok2⟩ := hok
      refine ⟨buf, bufn, rfl, ?_, by omega, ?_⟩
      · rw [← hok1]
      · rw [← hok1]
        simp [fmGroupLengthBytes, u32LE]
        omega

/-- C9 witness: the flush theorem applied to a one-element, purely file-meta
write. -/
theorem write_elements_all_filemeta_flush_witness :
    ∃ buf bufn,
      writeElementsSeq [] ([fmImplicitElem].filter not_group_length) =
        Except.ok (buf, bufn) ∧
      ({ dataset := [2, 0, 0, 0, 85, 76, 4, 0, 10, 0, 0, 0,
                     2, 0, 16, 0, 2, 0, 0, 0, 49, 0],
         state := WriterState.FileMeta, bytes_written := 0,
         ts := ts.ExplicitVRLittleEndian, cs := DEFAULT_CHARACTER_SET,
         file_preamble := none } : Writer).dataset =
        w0.dataset ++ fmGroupLengthBytes buf.length ++ buf ∧
      (22 : Nat) = 12 + buf.length ∧
      ({ dataset := [2, 0, 0, 0, 85, 76, 4, 0, 10, 0, 0, 0,
                     2, 0, 16, 0, 2, 0, 0, 0, 49, 0],
         state := WriterState.FileMeta, bytes_written := 0,
         ts := ts.ExplicitVRLittleEndian, cs := DEFAULT_CHARACTER_SET,
         file_preamble := none } : Writer).dataset.length =
        w0.dataset.length + 12 + buf.length :=
  write_elements_all_filemeta_flush w0 [fmImplicitElem] _ 22 rfl
    (by decide) ⟨fmImplicitElem, by simp, by decide⟩ rfl

/-- C6: against the scripted source, reading a tag reports ExpectedEOF (the
EofBeforeElement kind) when zero bytes can be drawn at the start of the tag,
an IO error when at least one but fewer than the needed bytes are available,
and a leading Interrupted read is retried transparently, leaving the result
unchanged. -/
theorem read_tag_eof_spec (bs : List Nat) (s : List ReadEvent) (be : Bool) :
    (read_tag_from_dataset [] be = Except.error ParseErr.ExpectedEOF) ∧
    (read_tag_from_dataset (ReadEvent.chunk [] :: s) be =
      Except.error ParseErr.ExpectedEOF) ∧
    (1 ≤ bs.length → bs.length < 4 →
      read_tag_from_dataset [ReadEvent.chunk bs] be =
        Except.error ParseErr.IOErrorK) ∧
    (read_tag_from_dataset (ReadEvent.interrupted :: s) be =
      read_tag_from_dataset s be) := by
  refine ⟨rfl, rfl, ?_, rfl⟩
  intro h1 h4
  cases bs with
  | nil => simp at h1
  | cons a t =>
    cases t with
    | nil => rfl
    | cons b t2 =>
      cases t2 with
      | nil => rfl
      | cons c t3 =>
        cases t3 with
        | nil => rfl
        | cons d t4 => simp at h4; omega

/-- C6 witness: a single available byte at the start of a tag yields the IO
error. -/
theorem read_tag_eof_spec_witness :
    read_tag_from_dataset [ReadEvent.chunk [7]] false =
      Except.error ParseErr.IOErrorK :=
  (read_tag_eof_spec [7] [] false).2.2.1 (by decide) (by decide)

/-- C5 failing input: reading a short-form value length draws exactly the two
length bytes from the stream, yet advances `bytes_read` by the VR's whole
`explicit_vr_header_bytes` (8) — re-counting the tag and VR bytes already
counted by `read_tag` and `read_vr` — so the counter does not advance by the
bytes actually drawn. -/
theorem read_value_length_overcounts :
    DicomStream.read_value_length false vr.UL c5Stream =
      Except.ok (4,
        { stream := [], file_meta := [], ts := ts.ExplicitVRLittleEndian,
          tag_peek := none, bytes_read := 8 }) ∧
    c5Stream.stream.length = 2 ∧
    c5Stream.bytes_read = 0 ∧
    (8 : Nat) ≠ 2 :=
  ⟨rfl, rfl, rfl, by decide⟩

/-- Map-insert key membership: inserting adds its own key and preserves every
other key. -/
theorem hasKey_insert (k kk : Nat) (v : OldElement) (m : List (Nat × OldElement)) :
    hasKey k (fmInsert kk v m) = (decide (k = kk) || hasKey k m) := by
  induction m with
  | nil =>
    by_cases h : k = kk
    · subst h
      simp [hasKey, fmInsert]
    · have h2 : ¬ kk = k := fun hc => h hc.symm
      simp [hasKey, fmInsert, h, h2]
  | cons a m ih =>
    by_cases ha : a.1 = kk
    · have hstep : fmInsert kk v (a :: m) = fmInsert kk v m := by
        simp [fmInsert, List.filter_cons, ha]
      rw [hstep, ih]
      by_cases h : k = kk
      · simp [h]
      · have hak : ¬ a.1 = k := fun hc => h (hc ▸ ha)
        simp [hasKey, List.any_cons, h, hak]
    · have hstep : fmInsert kk v (a :: m) = a :: fmInsert kk v m := by
        simp [fmInsert, List.filter_cons, ha]
      rw [hstep]
      simp only [hasKey, List.any_cons] at ih ⊢
      rw [ih]
      cases decide (a.1 = k) <;> cases decide (k = kk) <;> simp

/-- Helper: `read_tag` leaves the file-meta map untouched. -/
theorem read_tag_file_meta (big : Bool) (st : DicomStream) (t : Nat)
    (st' : DicomStream) (h : DicomStream.read_tag big st = Except.ok (t, st')) :
    st'.file_meta = st.file_meta := by
  unfold DicomStream.read_tag at h
  cases hpk : st.tag_peek with
  | some x =>
    simp only [hpk, Except.ok.injEq, Prod.mk.injEq] at h
    rw [← h.2]
  | none =>
    cases h1 : takeExact 2 st.stream with
    | error er => simp only [hpk, h1, reduceCtorEq] at h
    | ok r1 =>
      obtain ⟨b1, s1⟩ := r1
      cases h2 : takeExact 2 s1 with
      | error er => simp only [hpk, h1, h2, reduceCtorEq] at h
      | ok r2 =>
        obtain ⟨b2, s2⟩ := r2
        simp only [hpk, h1, h2, Except.ok.injEq, Prod.mk.injEq] at h
        rw [← h.2]

/-- Helper: `read_vr` leaves the file-meta map untouched. -/
theorem read_vr_file_meta (st : DicomStream) (v : VR) (st' : DicomStream)
    (h : DicomStream.read_vr st = Except.ok (v, st')) :
    st'.file_meta = st.file_meta := by
  unfold DicomStream.read_vr at h
  cases h1 : takeExact 2 st.stream with
  | error er => simp only [h1, reduceCtorEq] at h
  | ok r1 =>
    obtain ⟨b, s1⟩ := r1
    cases h2 : vr.from_code ((b.headD 0) * 256 + (b.getD 1 0)) with
    | none => simp only [h1, h2, reduceCtorEq] at h
    | some v2 =>
      simp only [h1, h2, Except.ok.injEq, Prod.mk.injEq] at h
      rw [← h.2]

/-- Helper: `read_value_length` leaves the file-meta map untouched. -/
theorem read_value_length_file_meta (big : Bool) (v : VR) (st : DicomStream)
    (vl : Nat) (st' : DicomStream)
    (h : DicomStream.read_value_length big v st = Except.ok (vl, st')) :
    st'.file_meta = st.file_meta := by
  unfold DicomStream.read_value_length at h
  by_cases h8 : v.explicit_vr_header_bytes = 8
  · rw [if_pos h8] at h
    cases h1 : takeExact 2 st.stream with
    | error er => simp only [h1, reduceCtorEq] at h
    | ok r1 =>
      obtain ⟨b, s1⟩ := r1
      simp only [h1, Except.ok.injEq, Prod.mk.injEq] at h
      rw [← h.2]
  · rw [if_neg h8] at h
    by_cases h12 : v.explicit_vr_header_bytes = 12
    · rw [if_pos h12] at h
      cases h1 : takeExact 2 st.stream with
      | error er => simp only [h1, reduceCtorEq] at h
      | ok r1 =>
        obtain ⟨b1, s1⟩ := r1
        cases h2 : takeExact 4 s1 with
        | error er => simp only [h1, h2, reduceCtorEq] at h
        | ok r2 =>
          obtain ⟨b2, s2⟩ := r2
          simp only [h1, h2, Except.ok.injEq, Prod.mk.injEq] at h
          rw [← h.2]
    · rw [if_neg h12] at h
      exact absurd h (by simp)

/-- Helper: `read_value_field` leaves the file-meta map untouched. -/
theorem read_value_field_file_meta (vl : Nat) (st : DicomStream)
    (bytes : List Nat) (st' : DicomStream)
    (h : DicomStream.read_value_field vl st = Except.ok (bytes, st')) :
    st'.file_meta = st.file_meta := by
  unfold DicomStream.read_value_field at h
  cases h1 : takeExact vl st.stream with
  | error er => simp only [h1, reduceCtorEq] at h
  | ok r1 =>
    obtain ⟨b, s1⟩ := r1
    simp only [h1, Except.ok.injEq, Prod.mk.injEq] at h
    rw [← h.2]

/-- Helper: `read_dicom_element` leaves the file-meta map untouched: insertion happens
only in the file-meta loop. -/
theorem read_dicom_element_file_meta (st : DicomStream) (e : OldElement)
    (st' : DicomStream)
    (h : DicomStream.read_dicom_element st = Except.ok (e, st')) :
    st'.file_meta = st.file_meta := by
  unfold DicomStream.read_dicom_element
    DicomStream.read_dicom_element_endian at h
  cases h0 : (match st.tag_peek with
      | some t => Except.ok (t, st)
      | none => DicomStream.read_tag st.ts.big_endian st :
        Except ParseErr (Nat × DicomStream)) with
  | error er => simp only [h0, reduceCtorEq] at h
  | ok q =>
    obtain ⟨tag, sta⟩ := q
    have hsta : sta.file_meta = st.file_meta := by
      cases hpk : st.tag_peek with
      | some t =>
        rw [hpk] at h0
        simp only [Except.ok.injEq, Prod.mk.injEq] at h0
        rw [← h0.2]
      | none =>
        rw [hpk] at h0
        exact read_tag_file_meta _ _ _ _ h0
    cases h1 : (if ({ sta with tag_peek := none } : DicomStream).ts.explicit_vr then
        DicomStream.read_vr { sta with tag_peek := none }
      else Except.ok ((DicomStream.implicit_vr_of tag).getD vr.UN,
        { sta with tag_peek := none }) : Except ParseErr (VR × DicomStream)) with
    | error er => simp only [h0, h1, reduceCtorEq] at h
    | ok q1 =>
      obtain ⟨v, stb⟩ := q1
      have hstb : stb.file_meta = sta.file_meta := by
        by_cases hev : ({ sta with tag_peek := none } : DicomStream).ts.explicit_vr = true
        · rw [if_pos hev] at h1
          exact read_vr_file_meta { sta with tag_peek := none } v stb h1
        · rw [if_neg hev] at h1
          simp only [Except.ok.injEq, Prod.mk.injEq] at h1
          rw [← h1.2]
      cases h2 : DicomStream.read_value_length st.ts.big_endian v stb with
      | error er => simp only [h0, h1, h2, reduceCtorEq] at h
      | ok q2 =>
        obtain ⟨vl, stc⟩ := q2
        have hstc := read_value_length_file_meta _ _ _ _ _ h2
        cases h3 : DicomStream.read_value_field vl stc with
        | error er => simp only [h0, h1, h2, h3, reduceCtorEq] at h
        | ok q3 =>
          obtain ⟨bytes, std⟩ := q3
          have hstd := read_value_field_file_meta _ _ _ _ h3
          simp only [h0, h1, h2, h3, Except.ok.injEq, Prod.mk.injEq] at h
          rw [← h.2, hstd, hstc, hstb, hsta]

/-- Keys present in the file-meta map persist through the file-meta element
loop: the loop only inserts. -/
theorem read_fme_loop_keys (fuel : Nat) (st : DicomStream) (before fb : Nat)
    (acc : TS) (st2 : DicomStream) (acc2 : TS) (k : Nat)
    (h : DicomStream.read_fme_loop fuel st before fb acc = Except.ok (st2, acc2))
    (hk : hasKey k st.file_meta = true) :
    hasKey k st2.file_meta = true := by
  induction fuel generalizing st acc with
  | zero => simp [DicomStream.read_fme_loop] at h
  | succ fuel ih =>
    unfold DicomStream.read_fme_loop at h
    by_cases hc : st.bytes_read - before < fb
    · rw [if_pos hc] at h
      cases hre : DicomStream.read_dicom_element st with
      | error er => simp only [hre, reduceCtorEq] at h
      | ok p =>
        obtain ⟨element, st1⟩ := p
        cases hts : (if element.tag = TRANSFER_SYNTAX_UID then
            match DicomStream.ts_uid_string element.bytes with
            | Except.error e => Except.error e
            | Except.ok uid =>
              Except.ok (match ts.TS_BY_ID uid with
                         | some t => t
                         | none => acc)
          else Except.ok acc : Except ParseErr TS) with
        | error er => simp only [hre, hts, reduceCtorEq] at h
        | ok acc1 =>
          simp only [hre, hts] at h
          refine ih _ acc1 h ?_
          rw [hasKey_insert]
          have hfm := read_dicom_element_file_meta st element st1 hre
          rw [hfm, hk]
          simp
    · rw [if_neg hc] at h
      simp only [Except.ok.injEq, Prod.mk.injEq] at h
      rw [← h.1]
      exact hk

/-- If the final file-meta map holds no TransferSyntaxUID key, the loop never
read a TransferSyntaxUID element, so the stashed transfer syntax is
unchanged. -/
theorem read_fme_loop_no_tsuid (fuel : Nat) (st : DicomStream) (before fb : Nat)
    (acc : TS) (st2 : DicomStream) (acc2 : TS)
    (h : DicomStream.read_fme_loop fuel st before fb acc = Except.ok (st2, acc2))
    (hkey : hasKey TRANSFER_SYNTAX_UID st2.file_meta = false) :
    acc2 = acc := by
  induction fuel generalizing st acc with
  | zero => simp [DicomStream.read_fme_loop] at h
  | succ fuel ih =>
    unfold DicomStream.read_fme_loop at h
    by_cases hc : st.bytes_read - before < fb
    · rw [if_pos hc] at h
      cases hre : DicomStream.read_dicom_element st with
      | error er => simp only [hre, reduceCtorEq] at h
      | ok p =>
        obtain ⟨element, st1⟩ := p
        cases hts : (if element.tag = TRANSFER_SYNTAX_UID then
            match DicomStream.ts_uid_string element.bytes with
            | Except.error e => Except.error e
            | Except.ok uid =>
              Except.ok (match ts.TS_BY_ID uid with
                         | some t => t
                         | none => acc)
          else Except.ok acc : Except ParseErr TS) with
        | error er => simp only [hre, hts, reduceCtorEq] at h
        | ok acc1 =>
          simp only [hre, hts] at h
          by_cases ht : element.tag = TRANSFER_SYNTAX_UID
          · exfalso
            have hkeys := read_fme_loop_keys fuel _ before fb acc1 st2 acc2
              TRANSFER_SYNTAX_UID h ?_
            · rw [hkeys] at hkey
              exact absurd hkey (by simp)
            · rw [hasKey_insert, ht]
              simp
          · have hacc : acc1 = acc := by
              rw [if_neg ht] at hts
              exact (Except.ok.inj hts).symm
            rw [← hacc]
            exact ih _ acc1 h
    · rw [if_neg hc] at h
      simp only [Except.ok.injEq, Prod.mk.injEq] at h
      exact h.2.symm

/-- The stashed transfer syntax leaving the loop is either the incoming stash
or the recognized descriptor of some UID. -/
theorem read_fme_loop_recognized (fuel : Nat) (st : DicomStream)
    (before fb : Nat) (acc : TS) (st2 : DicomStream) (acc2 : TS)
    (h : DicomStream.read_fme_loop fuel st before fb acc = Except.ok (st2, acc2)) :
    acc2 = acc ∨ ∃ uid, ts.TS_BY_ID uid = some acc2 := by
  induction fuel generalizing st acc with
  | zero => simp [DicomStream.read_fme_loop] at h
  | succ fuel ih =>
    unfold DicomStream.read_fme_loop at h
    by_cases hc : st.bytes_read - before < fb
    · rw [if_pos hc] at h
      cases hre : DicomStream.read_dicom_element st with
      | error er => simp only [hre, reduceCtorEq] at h
      | ok p =>
        obtain ⟨element, st1⟩ := p
        cases hts : (if element.tag = TRANSFER_SYNTAX_UID then
            match DicomStream.ts_uid_string element.bytes with
            | Except.error e => Except.error e
            | Except.ok uid =>
              Except.ok (match ts.TS_BY_ID uid with
                         | some t => t
                         | none => acc)
          else Except.ok acc : Except ParseErr TS) with
        | error er => simp only [hre, hts, reduceCtorEq] at h
        | ok acc1 =>
          simp only [hre, hts] at h
          by_cases ht : element.tag = TRANSFER_SYNTAX_UID
          · rw [if_pos ht] at hts
            cases hu : DicomStream.ts_uid_string element.bytes with
            | error er => rw [hu] at hts; exact absurd hts (by simp)
            | ok uid =>
              simp only [hu] at hts
              cases hl : ts.TS_BY_ID uid with
              | some t =>
                have hacc : acc1 = t := by
                  simp only [hl] at hts
                  exact (Except.ok.inj hts).symm
                cases ih _ acc1 h with
                | inl heq =>
                  right
                  refine ⟨uid, ?_⟩
                  rw [hl, heq, hacc]
                | inr hrec => exact Or.inr hrec
              | none =>
                have hacc : acc1 = acc := by
                  simp only [hl] at hts
                  exact (Except.ok.inj hts).symm
                cases ih _ acc1 h with
                | inl heq => exact Or.inl (heq.trans hacc)
                | inr hrec => exact Or.inr hrec
          · have hacc : acc1 = acc := by
              rw [if_neg ht] at hts
              exact (Except.ok.inj hts).symm
            cases ih _ acc1 h with
            | inl heq => exact Or.inl (heq.trans hacc)
            | inr hrec => exact Or.inr hrec
    · rw [if_neg hc] at h
      simp only [Except.ok.injEq, Prod.mk.injEq] at h
      exact Or.inl h.2.symm

/-- If the loop run recognizes no TransferSyntaxUID (by the `fme_loop_recognizes`
observer), the stashed transfer syntax it returns is the incoming one
unchanged. -/
theorem read_fme_loop_unrecognized (fuel : Nat) (st : DicomStream)
    (before fb : Nat) (acc : TS) (st2 : DicomStream) (acc2 : TS)
    (h : DicomStream.read_fme_loop fuel st before fb acc = Except.ok (st2, acc2))
    (hnr : DicomStream.fme_loop_recognizes fuel st before fb = false) :
    acc2 = acc := by
  induction fuel generalizing st acc with
  | zero => simp [DicomStream.read_fme_loop] at h
  | succ fuel ih =>
    unfold DicomStream.read_fme_loop at h
    unfold DicomStream.fme_loop_recognizes at hnr
    by_cases hc : st.bytes_read - before < fb
    · rw [if_pos hc] at h
      rw [if_pos hc] at hnr
      cases hre : DicomStream.read_dicom_element st with
      | error er => simp only [hre, reduceCtorEq] at h
      | ok p =>
        obtain ⟨element, st1⟩ := p
        simp only [hre] at hnr
        cases hts : (if element.tag = TRANSFER_SYNTAX_UID then
            match DicomStream.ts_uid_string element.bytes with
            | Except.error e => Except.error e
            | Except.ok uid =>
              Except.ok (match ts.TS_BY_ID uid with
                         | some t => t
                         | none => acc)
          else Except.ok acc : Except ParseErr TS) with
        | error er => simp only [hre, hts, reduceCtorEq] at h
        | ok acc1 =>
          simp only [hre, hts] at h
          by_cases ht : element.tag = TRANSFER_SYNTAX_UID
          · rw [if_pos ht] at hts
            rw [if_pos ht] at hnr
            cases hu : DicomStream.ts_uid_string element.bytes with
            | error er => rw [hu] at hts; exact absurd hts (by simp)
            | ok uid =>
              simp only [hu] at hts hnr
              cases hl : ts.TS_BY_ID uid with
              | some t => simp only [hl, reduceCtorEq] at hnr
              | none =>
                have hacc : acc1 = acc := by
                  simp only [hl] at hts
                  exact (Except.ok.inj hts).symm
                simp only [hl] at hnr
                exact (ih _ acc1 h hnr).trans hacc
          · have hacc : acc1 = acc := by
              rw [if_neg ht] at hts
              exact (Except.ok.inj hts).symm
            rw [if_neg ht] at hnr
            exact (ih _ acc1 h hnr).trans hacc
    · rw [if_neg hc] at h
      simp only [Except.ok.injEq, Prod.mk.injEq] at h
      exact h.2.symm

/-- If the loop run does recognize a TransferSyntaxUID, a TransferSyntaxUID
element was read and inserted in that iteration, so the key is in the final
file-meta map. -/
theorem read_fme_loop_recognizes_key (fuel : Nat) (st : DicomStream)
    (before fb : Nat) (acc : TS) (st2 : DicomStream) (acc2 : TS)
    (h : DicomStream.read_fme_loop fuel st before fb acc = Except.ok (st2, acc2))
    (hr : DicomStream.fme_loop_recognizes fuel st before fb = true) :
    hasKey TRANSFER_SYNTAX_UID st2.file_meta = true := by
  induction fuel generalizing st acc with
  | zero => simp [DicomStream.read_fme_loop] at h
  | succ fuel ih =>
    unfold DicomStream.read_fme_loop at h
    unfold DicomStream.fme_loop_recognizes at hr
    by_cases hc : st.bytes_read - before < fb
    · rw [if_pos hc] at h
      rw [if_pos hc] at hr
      cases hre : DicomStream.read_dicom_element st with
      | error er => simp only [hre, reduceCtorEq] at h
      | ok p =>
        obtain ⟨element, st1⟩ := p
        simp only [hre] at hr
        cases hts : (if element.tag = TRANSFER_SYNTAX_UID then
            match DicomStream.ts_uid_string element.bytes with
            | Except.error e => Except.error e
            | Except.ok uid =>
              Except.ok (match ts.TS_BY_ID uid with
                         | some t => t
                         | none => acc)
          else Except.ok acc : Except ParseErr TS) with
        | error er => simp only [hre, hts, reduceCtorEq] at h
        | ok acc1 =>
          simp only [hre, hts] at h
          by_cases ht : element.tag = TRANSFER_SYNTAX_UID
          · rw [if_pos ht] at hr
            cases hu : DicomStream.ts_uid_string element.bytes with
            | error er => simp only [hu, reduceCtorEq] at hr
            | ok uid =>
              simp only [hu] at hr
              cases hl : ts.TS_BY_ID uid with
              | some t =>
                refine read_fme_loop_keys fuel _ before fb acc1 st2 acc2
                  TRANSFER_SYNTAX_UID h ?_
                rw [hasKey_insert, ht]
                simp
              | none =>
                simp only [hl] at hr
                exact ih _ acc1 h hr
          · rw [if_neg ht] at hr
            exact ih _ acc1 h hr
    · rw [if_neg hc] at hr
      exact absurd hr (by simp)

/-- C4 (amended): after `read_file_meta` succeeds, if its file-meta pass read
no TransferSyntaxUID element carrying a recognized UID — which covers both a
TransferSyntaxUID that is absent and one that is present but carries an
unrecognized or undecodable UID — the active transfer syntax for the
remainder of the dataset is ImplicitVRLittleEndian, not
ExplicitVRLittleEndian; and whenever the final file-meta map holds no
TransferSyntaxUID element (none was present), no recognition occurred, so the
same fallback applies. -/
theorem read_file_meta_ts_fallback (st st' : DicomStream)
    (h : DicomStream.read_file_meta st = Except.ok st') :
    (DicomStream.fm_recognizes st = false →
      st'.ts = ts.ImplicitVRLittleEndian) ∧
    (hasKey TRANSFER_SYNTAX_UID st'.file_meta = false →
      DicomStream.fm_recognizes st = false) := by
  unfold DicomStream.read_file_meta at h
  unfold DicomStream.fm_recognizes
  cases hp : DicomStream.read_file_preamble st with
  | error er => simp only [hp, reduceCtorEq] at h
  | ok st1 =>
    cases hm : DicomStream.read_dicom_magic st1 with
    | error er => simp only [hp, hm, reduceCtorEq] at h
    | ok st2 =>
      cases hge : DicomStream.read_dicom_element st2 with
      | error er => simp only [hp, hm, hge, reduceCtorEq] at h
      | ok p =>
        obtain ⟨gl, st3⟩ := p
        simp only [hp, hm, hge] at h ⊢
        by_cases htag : gl.tag ≠ FILE_META_INFORMATION_GROUP_LENGTH
        · rw [if_pos htag] at h
          exact absurd h (by simp)
        · rw [if_neg htag] at h
          rw [if_neg htag]
          by_cases hlen : gl.bytes.length < 4
          · rw [if_pos hlen] at h
            exact absurd h (by simp)
          · rw [if_neg hlen] at h
            rw [if_neg hlen]
            cases hloop : DicomStream.read_fme_loop (st3.stream.length + 1) st3
                st2.bytes_read (fromU32LE (gl.bytes.take 4))
                ts.ImplicitVRLittleEndian with
            | error er =>
              rw [hloop] at h
              exact absurd h (by simp)
            | ok q =>
              obtain ⟨st4, tsv⟩ := q
              simp only [hloop, Except.ok.injEq] at h
              have hts' : st'.ts = tsv := by rw [← h]
              have hfm' : st'.file_meta = st4.file_meta := by rw [← h]
              constructor
              · intro hnr
                rw [hts']
                exact read_fme_loop_unrecognized _ _ _ _ _ _ _ hloop hnr
              · intro hkey
                rw [hfm'] at hkey
                cases hr : DicomStream.fme_loop_recognizes
                    (st3.stream.length + 1) st3 st2.bytes_read
                    (fromU32LE (gl.bytes.take 4)) with
                | false => rfl
                | true =>
                  have hk := read_fme_loop_recognizes_key _ _ _ _ _ _ _ hloop hr
                  rw [hk] at hkey
                  exact absurd hkey (by simp)

set_option maxRecDepth 100000

/-- C4 counterexample: on a file-meta group with no TransferSyntaxUID element,
`read_file_meta` leaves the active transfer syntax ImplicitVRLittleEndian, not
ExplicitVRLittleEndian as the claim states. -/
theorem read_file_meta_fallback_counterexample :
    DicomStream.read_file_meta (DicomStream.new c4Stream) = Except.ok c4Final ∧
    c4Final.ts = ts.ImplicitVRLittleEndian ∧
    ts.ImplicitVRLittleEndian ≠ ts.ExplicitVRLittleEndian :=
  ⟨rfl, rfl, by decide⟩

/-- C4 witness: the fallback theorem applied to the concrete stream, whose
run reads no recognized TransferSyntaxUID. -/
theorem read_file_meta_ts_fallback_witness :
    DicomStream.fm_recognizes (DicomStream.new c4Stream) = false ∧
    c4Final.ts = ts.ImplicitVRLittleEndian :=
  ⟨rfl, (read_file_meta_ts_fallback (DicomStream.new c4Stream) c4Final rfl).1 rfl⟩

/-- C7 witness: the error-free branch applied at a short-form explicit
length. -/
theorem write_vl_spec_witness :
    ∃ bs n, write_vl [] sampleVlElem = Except.ok ([] ++ bs, n) ∧
      bs.length = n ∧ (n = 2 ∨ n = 4) ∧
      (sampleVlElem.vl = ValueLength.UndefinedLength → bs = [255, 255, 255, 255]) :=
  (write_vl_spec [] sampleVlElem).2.2 (by simp [sampleVlElem])

end Dcmpipe
